import Mathlib

/-!
Verification development for the garmin-lap-analyzer repository.

The definitions below are a shallow embedding of the JavaScript sources:
* `src/content.js` — ZIP extraction (`extractFitFromZip`), the JSON adapter
  (`parseJsonActivity`, lap part), and the lap/record reconciler
  (`computeLapStats`);
* `src/fit-parser.js` — the FIT binary protocol decoder (`FitParser`).

Modelling conventions:
* JavaScript numbers are modelled as `ℚ` (exact rationals); the code under
  test only performs +, -, *, /, comparisons, `Math.round`, `Math.min` and
  `Math.max` on them, all of which are exact over the inputs of interest.
* An absent JavaScript value (`null` / `undefined` / missing property) is
  modelled as `Option.none`.
* JavaScript 32-bit operators (`&`, applied by the decoder to timestamps)
  are modelled with their ToInt32/ToUint32 coercion semantics.
* `Array.prototype.sort` with the comparator `(a, b) => a.distance - b.distance`
  is a stable ascending sort by distance; it is modelled by the (stable)
  `List.insertionSort` with the corresponding total preorder.
-/

-- Let concrete rational arithmetic reduce during elaboration (the kernel
-- unfolds these anyway); needed so `decide` can evaluate the models below.
attribute [local semireducible] Rat.add Rat.sub Rat.mul Rat.inv Rat.ofScientific

/-- JavaScript `Math.round`: round to nearest, half toward positive infinity.
(`Rat.floor` is the kernel-computable floor; it agrees with `Int.floor`.) -/
def jsRound (q : ℚ) : ℤ := (q + 1/2).floor

/-- Truncation toward zero, as JavaScript ToInt32 does before taking bits. -/
def jsTrunc (q : ℚ) : ℤ := if 0 ≤ q then q.floor else q.ceil

/-- ToUint32: the 32-bit pattern of a JavaScript number. -/
def toUint32 (q : ℚ) : ℕ := ((jsTrunc q) % (2 ^ 32 : ℤ)).toNat

/-- Reinterpret a 32-bit pattern as a signed (two's-complement) integer,
as JavaScript bitwise operators return. -/
def asInt32 (n : ℕ) : ℤ := if n < 2 ^ 31 then (n : ℤ) else (n : ℤ) - 2 ^ 32

/-- JavaScript `a & b` on numbers: ToInt32 both sides, bitwise and, signed result. -/
def jsAnd (a b : ℚ) : ℤ := asInt32 (Nat.land (toUint32 a) (toUint32 b))

/-- Canonical per-second sample (`record` message), from the data model in
content.js / fit-parser.js. -/
structure RecordR where
  timestamp : Option ℚ := none
  heart_rate : Option ℚ := none
  distance : Option ℚ := none
  speed : Option ℚ := none
deriving DecidableEq

instance : Inhabited RecordR := ⟨{}⟩

/-- Canonical lap summary (`lap` message). `timestamp` is the lap end time,
as in the FIT profile and in parseJsonActivity. -/
structure LapR where
  start_time : Option ℚ := none
  timestamp : Option ℚ := none
  total_timer_time : Option ℚ := none
  total_distance : Option ℚ := none
  avg_heart_rate : Option ℚ := none
  max_heart_rate : Option ℚ := none
  avg_speed : Option ℚ := none
deriving DecidableEq

instance : Inhabited LapR := ⟨{}⟩

/-- Output row of computeLapStats (content.js lines 255-264). -/
structure LapStat where
  lapNumber : ℕ
  totalDistance : ℚ
  avgPace : Option ℚ
  minHR : Option ℚ
  maxHR : Option ℚ
  avgHR : Option ℚ
  timeToMinHR : Option ℚ
  elapsedTime : ℚ
deriving DecidableEq

instance : Inhabited LapStat := ⟨⟨0, 0, none, none, none, none, none, 0⟩⟩

/-- content.js lines 187-192: cumulative distance boundaries, one `(start, end)`
window per lap; the running total is threaded through the map. -/
def lapBoundsAux (cum : ℚ) : List LapR → List (ℚ × ℚ)
  | [] => []
  | lap :: rest =>
    let e := cum + lap.total_distance.getD 0
    (cum, e) :: lapBoundsAux e rest

/-- Cumulative lap windows, starting from distance 0. -/
def lapBounds (laps : List LapR) : List (ℚ × ℚ) := lapBoundsAux 0 laps

/-- The distance of a record, as used by the sort comparator (present on every
record that survives the `r.distance != null` filter). -/
def recDist (r : RecordR) : ℚ := r.distance.getD 0

/-- content.js lines 194-197: keep records with a present distance and sort
them ascending by distance (stable sort, as Array.prototype.sort is). -/
def sortRecords (records : List RecordR) : List RecordR :=
  List.insertionSort (fun a b => recDist a ≤ recDist b)
    (records.filter fun r => r.distance.isSome)

/-- content.js lines 203-205: distance-window match with the fixed 10 m
tolerance on both ends. -/
def distanceMatched (bound : ℚ × ℚ) (sorted : List RecordR) : List RecordR :=
  sorted.filter fun r =>
    decide (bound.1 - 10 ≤ recDist r) && decide (recDist r ≤ bound.2 + 10)

/-- content.js lines 209-211: timestamp-window match used by the fallback.
A comparison against an absent lap bound is false in JavaScript, matching the
catch-all arm. -/
def tsMatched (lap : LapR) (records : List RecordR) : List RecordR :=
  records.filter fun r =>
    match r.timestamp, lap.start_time, lap.timestamp with
    | some t, some s, some e => decide (s ≤ t) && decide (t ≤ e)
    | _, _, _ => false

/-- content.js lines 202-212: the matched record set of one lap — the
distance-window match, replaced wholesale by the timestamp-window match when
it is empty and the lap has both timestamps. -/
def lapMatched (lap : LapR) (bound : ℚ × ℚ) (records sorted : List RecordR) :
    List RecordR :=
  let lapRecords := distanceMatched bound sorted
  if lapRecords.isEmpty && lap.start_time.isSome && lap.timestamp.isSome then
    tsMatched lap records
  else lapRecords

/-- content.js line 215: records with a present, strictly positive heart rate. -/
def hrFilter (l : List RecordR) : List RecordR :=
  l.filter fun r => r.heart_rate.isSome && decide (0 < r.heart_rate.getD 0)

/-- content.js lines 218-237: the four HR statistics of one lap, as the tuple
(minHR, maxHR, avgHR, timeToMinHR). -/
def hrStats (lap : LapR) (lapRecords : List RecordR) :
    Option ℚ × Option ℚ × Option ℚ × Option ℚ :=
  let hrRecords := hrFilter lapRecords
  let hrValues := hrRecords.map fun r => r.heart_rate.getD 0
  if hrValues.isEmpty then
    -- fallback to the lap summary; `x || null` maps 0 to null
    (none,
     (match lap.max_heart_rate with
      | some v => if v = 0 then none else some v
      | none => none),
     (match lap.avg_heart_rate with
      | some v => if v = 0 then none else some v
      | none => none),
     none)
  else
    -- hrValues is nonempty here, so min? and max? are `some`
    let minHR := (hrValues.min?).getD 0
    let maxHR := (hrValues.max?).getD 0
    let avgHR : ℚ := (jsRound ((hrValues.foldl (· + ·) 0) / hrValues.length) : ℤ)
    let minHRRecord := hrRecords.find? fun r => decide (r.heart_rate.getD 0 = minHR)
    let timeToMinHR : Option ℚ :=
      match minHRRecord with
      | some r =>
        match r.timestamp, lap.start_time with
        | some t, some s => some ((jsRound (t - s) : ℤ) : ℚ)
        | _, _ => none
      | none => none
    (some minHR, some maxHR, some avgHR, timeToMinHR)

/-- content.js lines 242-245: elapsed time, preferring total_timer_time; the
`||` chain treats 0 (and the NaN produced by subtracting an absent bound) as
falsy and falls through. -/
def lapElapsed (lap : LapR) : ℚ :=
  let diff : Option ℚ :=
    match lap.timestamp, lap.start_time with
    | some e, some s => some (e - s)
    | _, _ => none
  let fromDiff : ℚ :=
    match diff with
    | some d => if d = 0 then 0 else d
    | none => 0
  match lap.total_timer_time with
  | some t => if t = 0 then fromDiff else t
  | none => fromDiff

/-- content.js lines 199-264: the LapStat of the lap at `index`. -/
def lapStatOf (index : ℕ) (lap : LapR) (bound : ℚ × ℚ)
    (records sorted : List RecordR) : LapStat :=
  let lapRecords := lapMatched lap bound records sorted
  let hr := hrStats lap lapRecords
  let totalDistance := lap.total_distance.getD 0
  let elapsedTime := lapElapsed lap
  let avgPace : Option ℚ :=
    if 0 < totalDistance ∧ 0 < elapsedTime then
      some (elapsedTime / totalDistance * 1000)
    else none
  { lapNumber := index + 1
    totalDistance := totalDistance
    avgPace := avgPace
    minHR := hr.1
    maxHR := hr.2.1
    avgHR := hr.2.2.1
    timeToMinHR := hr.2.2.2
    elapsedTime := elapsedTime }

/-- content.js lines 185-266: the reconciler. One LapStat per input lap, in
input order; `laps.map((lap, index) => ...)` is modelled by mapping over the
index range (the getD defaults are never reached for indices in range). -/
def computeLapStats (laps : List LapR) (records : List RecordR) : List LapStat :=
  let bounds := lapBounds laps
  let sorted := sortRecords records
  (List.range laps.length).map fun i =>
    lapStatOf i (laps.getD i {}) (bounds.getD i (0, 0)) records sorted


/-! ## FIT protocol decoder (src/fit-parser.js) -/

/-- DataView.getUint8: a byte of the buffer, failing out of bounds. -/
def readU8 (bytes : List ℕ) (i : ℕ) : Option ℕ := bytes[i]?

/-- DataView.getUint16 with an endianness flag. -/
def readU16 (bytes : List ℕ) (i : ℕ) (le : Bool) : Option ℕ := do
  let a ← bytes[i]?
  let b ← bytes[i + 1]?
  pure (if le then a + 256 * b else 256 * a + b)

/-- DataView.getUint32 with an endianness flag. -/
def readU32 (bytes : List ℕ) (i : ℕ) (le : Bool) : Option ℕ := do
  let a ← bytes[i]?
  let b ← bytes[i + 1]?
  let c ← bytes[i + 2]?
  let d ← bytes[i + 3]?
  pure (if le then a + 256 * b + 65536 * c + 16777216 * d
        else d + 256 * c + 65536 * b + 16777216 * a)

/-- Eight bytes as one unsigned value (used only for the float64 bit pattern). -/
def readU64 (bytes : List ℕ) (i : ℕ) (le : Bool) : Option ℕ := do
  let lo ← readU32 bytes i le
  let hi ← readU32 bytes (i + 4) le
  pure (if le then lo + 4294967296 * hi else hi + 4294967296 * lo)

/-- Two's-complement reinterpretation at width w of an unsigned value. -/
def toSigned (w : ℕ) (v : ℕ) : ℤ :=
  if v < 2 ^ (w - 1) then (v : ℤ) else (v : ℤ) - 2 ^ w

/-- The DataView read function a base type uses (fit-parser.js BASE_TYPES
`read` column). The two float kinds are modelled as their raw bit patterns;
no claim depends on the numeric value of a float field. -/
inductive ReadKind where
  | u8 | i8 | u16 | i16 | u32 | i32 | f32 | f64
deriving DecidableEq

/-- One row of the BASE_TYPES table: width, read function (none for
string/byte-array), invalid sentinel (none when the row stores null). -/
structure BaseTypeInfo where
  size : ℕ
  read : Option ReadKind
  invalid : Option ℤ
deriving DecidableEq

/-- fit-parser.js lines 37-52: the BASE_TYPES table. -/
def baseTypesTable (bt : ℕ) : Option BaseTypeInfo :=
  if bt = 0x00 then some ⟨1, some .u8, some 0xFF⟩       -- enum
  else if bt = 0x01 then some ⟨1, some .i8, some 0x7F⟩  -- sint8
  else if bt = 0x02 then some ⟨1, some .u8, some 0xFF⟩  -- uint8
  else if bt = 0x83 then some ⟨2, some .i16, some 0x7FFF⟩
  else if bt = 0x84 then some ⟨2, some .u16, some 0xFFFF⟩
  else if bt = 0x85 then some ⟨4, some .i32, some 0x7FFFFFFF⟩
  else if bt = 0x86 then some ⟨4, some .u32, some 0xFFFFFFFF⟩
  else if bt = 0x07 then some ⟨1, none, some 0⟩         -- string
  else if bt = 0x88 then some ⟨4, some .f32, none⟩
  else if bt = 0x89 then some ⟨8, some .f64, none⟩
  else if bt = 0x0A then some ⟨1, some .u8, some 0⟩     -- uint8z
  else if bt = 0x8B then some ⟨2, some .u16, some 0⟩    -- uint16z
  else if bt = 0x8C then some ⟨4, some .u32, some 0⟩    -- uint32z
  else if bt = 0x0D then some ⟨1, none, none⟩           -- byte array
  else none

/-- fit-parser.js line 195: `BASE_TYPES[baseType] || BASE_TYPES[baseType & 0x1F]`. -/
def lookupBaseType (bt : ℕ) : Option BaseTypeInfo :=
  (baseTypesTable bt).orElse fun _ => baseTypesTable (Nat.land bt 0x1F)

/-- Dispatch of `this.view[typeInfo.read](offset, littleEndian)`. -/
def readRaw (rk : ReadKind) (bytes : List ℕ) (i : ℕ) (le : Bool) : Option ℤ :=
  match rk with
  | .u8 => (readU8 bytes i).map Int.ofNat
  | .i8 => (readU8 bytes i).map (toSigned 8)
  | .u16 => (readU16 bytes i le).map Int.ofNat
  | .i16 => (readU16 bytes i le).map (toSigned 16)
  | .u32 => (readU32 bytes i le).map Int.ofNat
  | .i32 => (readU32 bytes i le).map (toSigned 32)
  | .f32 => (readU32 bytes i le).map Int.ofNat
  | .f64 => (readU64 bytes i le).map Int.ofNat

/-- A (field id, declared byte size, base type tag) triple of a definition
message. -/
structure FieldDef where
  num : ℕ
  size : ℕ
  baseType : ℕ
deriving DecidableEq

/-- A developer field declaration (skipped by byte count only). -/
structure DevFieldDef where
  num : ℕ
  size : ℕ
  devIdx : ℕ
deriving DecidableEq

/-- A StreamDefinition (fit-parser.js line 147). -/
structure MsgDef where
  globalMsgNum : ℕ
  littleEndian : Bool
  fields : List FieldDef
  devFields : List DevFieldDef
deriving DecidableEq

/-- fit-parser.js lines 193-216: read one field. Returns the advanced offset
and the decoded value (none for skipped fields and for the invalid sentinel);
fails only when an actual DataView read runs out of bounds. -/
def readField (bytes : List ℕ) (offset : ℕ) (f : FieldDef) (le : Bool) :
    Option (ℕ × Option ℤ) :=
  match lookupBaseType f.baseType with
  | none => some (offset + f.size, none)
  | some ti =>
    match ti.read with
    | none => some (offset + f.size, none)
    | some rk =>
      if f.size ≠ ti.size then some (offset + f.size, none)
      else
        match readRaw rk bytes offset le with
        | none => none
        | some v =>
          some (offset + f.size,
            match ti.invalid with
            | some inv => if v = inv then none else some v
            | none => some v)

/-- A field profile row of FIT_FIELDS (fit-parser.js lines 9-35). -/
structure FieldProfile where
  name : String
  scale : Option ℚ := none
  offset : Option ℚ := none

/-- fit-parser.js lines 9-35: the FIT_FIELDS profile tables for lap (19) and
record (20) messages. -/
def fitFields (globalMsgNum : ℕ) (fieldNum : ℕ) : Option FieldProfile :=
  if globalMsgNum = 19 then
    if fieldNum = 2 then some ⟨"start_time", none, none⟩
    else if fieldNum = 7 then some ⟨"total_elapsed_time", some 1000, none⟩
    else if fieldNum = 8 then some ⟨"total_timer_time", some 1000, none⟩
    else if fieldNum = 9 then some ⟨"total_distance", some 100, none⟩
    else if fieldNum = 13 then some ⟨"avg_speed", some 1000, none⟩
    else if fieldNum = 14 then some ⟨"max_speed", some 1000, none⟩
    else if fieldNum = 15 then some ⟨"avg_heart_rate", none, none⟩
    else if fieldNum = 16 then some ⟨"max_heart_rate", none, none⟩
    else if fieldNum = 110 then some ⟨"enhanced_avg_speed", some 1000, none⟩
    else if fieldNum = 111 then some ⟨"enhanced_max_speed", some 1000, none⟩
    else if fieldNum = 253 then some ⟨"timestamp", none, none⟩
    else none
  else if globalMsgNum = 20 then
    if fieldNum = 0 then some ⟨"position_lat", none, none⟩
    else if fieldNum = 1 then some ⟨"position_long", none, none⟩
    else if fieldNum = 2 then some ⟨"altitude", some 5, some 500⟩
    else if fieldNum = 3 then some ⟨"heart_rate", none, none⟩
    else if fieldNum = 4 then some ⟨"cadence", none, none⟩
    else if fieldNum = 5 then some ⟨"distance", some 100, none⟩
    else if fieldNum = 6 then some ⟨"speed", some 1000, none⟩
    else if fieldNum = 73 then some ⟨"enhanced_speed", some 1000, none⟩
    else if fieldNum = 78 then some ⟨"enhanced_altitude", some 5, some 500⟩
    else if fieldNum = 253 then some ⟨"timestamp", none, none⟩
    else none
  else none

/-- fit-parser.js lines 4-7: FIT_MSG_NAMES. -/
def fitMsgName (n : ℕ) : Option String :=
  if n = 0 then some "file_id"
  else if n = 18 then some "session"
  else if n = 19 then some "lap"
  else if n = 20 then some "record"
  else if n = 21 then some "event"
  else if n = 23 then some "device_info"
  else if n = 34 then some "activity"
  else none

/-- fit-parser.js lines 163-166: apply scale and offset; the truthiness tests
`if (profile.scale)` / `if (profile.offset)` skip 0 as well as absent. -/
def applyProfile (p : FieldProfile) (v : ℚ) : ℚ :=
  let v1 :=
    match p.scale with
    | some s => if s = 0 then v else v / s
    | none => v
  match p.offset with
  | some o => if o = 0 then v1 else v1 - o
  | none => v1

/-- A decoded message: JavaScript object with number-valued properties,
in property-creation order. -/
abbrev Msg : Type := List (String × ℚ)

/-- Property assignment `obj[k] = v`: overwrite in place or append. -/
def setKey (m : Msg) (k : String) (v : ℚ) : Msg :=
  if m.any fun kv => kv.1 = k then
    m.map fun kv => if kv.1 = k then (k, v) else kv
  else m ++ [(k, v)]

/-- Property read `obj[k]`. -/
def getKey (m : Msg) (k : String) : Option ℚ :=
  (m.find? fun kv => kv.1 = k).map fun kv => kv.2

/-- Assignment into an association list keyed by ℕ (the `definitions` and
`messages` objects). -/
def assocSet {β : Type} (l : List (ℕ × β)) (k : ℕ) (v : β) : List (ℕ × β) :=
  if l.any fun kv => kv.1 = k then
    l.map fun kv => if kv.1 = k then (k, v) else kv
  else l ++ [(k, v)]

/-- Lookup in an association list keyed by ℕ. -/
def assocGet {β : Type} (l : List (ℕ × β)) (k : ℕ) : Option β :=
  (l.find? fun kv => kv.1 = k).map fun kv => kv.2

/-- `this.messages[typeName].push(msg)` with on-demand creation. -/
def pushMsg (ms : List (String × List Msg)) (ty : String) (msg : Msg) :
    List (String × List Msg) :=
  if ms.any fun kv => kv.1 = ty then
    ms.map fun kv => if kv.1 = ty then (kv.1, kv.2 ++ [msg]) else kv
  else ms ++ [(ty, [msg])]

/-- The mutable FitParser state: byte cursor, StreamDefinition registry,
accumulated messages, last-timestamp accumulator. -/
structure PState where
  offset : ℕ
  definitions : List (ℕ × MsgDef)
  messages : List (String × List Msg)
  lastTimestamp : ℚ
deriving DecidableEq

/-- fit-parser.js lines 101-103: the compressed-timestamp computation,
with JavaScript 32-bit signed `&` semantics. -/
def compressedTs (prev : ℚ) (timeOffset : ℕ) : ℚ :=
  let ts : ℚ := ((jsAnd prev 4294967264 : ℤ) : ℚ) + (timeOffset : ℚ)
  if (timeOffset : ℤ) < jsAnd prev 31 then ts + 32 else ts

/-- fit-parser.js lines 127-132 / 138-144: the (num, size, third) byte triples
of a definition record field list. -/
def readTriples (bytes : List ℕ) : ℕ → ℕ → Option (ℕ × List (ℕ × ℕ × ℕ))
  | off, 0 => some (off, [])
  | off, n + 1 => do
    let a ← readU8 bytes off
    let b ← readU8 bytes (off + 1)
    let c ← readU8 bytes (off + 2)
    let (off2, rest) ← readTriples bytes (off + 3) n
    pure (off2, (a, b, c) :: rest)

/-- fit-parser.js lines 118-148: parse a definition message (the record header
byte is already consumed; `this.offset++` for the reserved byte performs no
read). -/
def parseDefinition (bytes : List ℕ) (s : PState) (localType : ℕ)
    (hasDev : Bool) : Except String PState :=
  let off0 := s.offset + 1
  match readU8 bytes off0 with
  | none => .error "read out of bounds"
  | some arch =>
    let le := arch == 0
    match readU16 bytes (off0 + 1) le with
    | none => .error "read out of bounds"
    | some globalMsgNum =>
      match readU8 bytes (off0 + 3) with
      | none => .error "read out of bounds"
      | some numFields =>
        match readTriples bytes (off0 + 4) numFields with
        | none => .error "read out of bounds"
        | some (off1, fts) =>
          let fields := fts.map fun t => FieldDef.mk t.1 t.2.1 t.2.2
          if hasDev then
            match readU8 bytes off1 with
            | none => .error "read out of bounds"
            | some numDev =>
              match readTriples bytes (off1 + 1) numDev with
              | none => .error "read out of bounds"
              | some (off2, dts) =>
                let devFields := dts.map fun t => DevFieldDef.mk t.1 t.2.1 t.2.2
                let defs := assocSet s.definitions localType
                  ⟨globalMsgNum, le, fields, devFields⟩
                .ok { s with offset := off2, definitions := defs }
          else
            let defs := assocSet s.definitions localType ⟨globalMsgNum, le, fields, []⟩
            .ok { s with offset := off1, definitions := defs }

/-- fit-parser.js lines 159-168: the per-field loop of a data message. -/
def readFieldsLoop (bytes : List ℕ) (le : Bool) (profile : ℕ → Option FieldProfile) :
    List FieldDef → ℕ → Msg → Option (ℕ × Msg)
  | [], off, msg => some (off, msg)
  | f :: rest, off, msg =>
    match readField bytes off f le with
    | none => none
    | some (off1, v) =>
      let msg1 :=
        match v, profile f.num with
        | some v, some p => setKey msg p.name (applyProfile p ((v : ℚ)))
        | _, _ => msg
      readFieldsLoop bytes le profile rest off1 msg1

/-- Total byte size of the developer fields (skipped without reads). -/
def devFieldsSize (l : List DevFieldDef) : ℕ := l.foldl (fun a d => a + d.size) 0

/-- fit-parser.js lines 150-191: parse a data message (header byte already
consumed). -/
def parseDataMessage (bytes : List ℕ) (s : PState) (localType : ℕ)
    (compTs : Option ℚ) : Except String PState :=
  match assocGet s.definitions localType with
  | none => .error "No definition for local type"
  | some defn =>
    match readFieldsLoop bytes defn.littleEndian (fitFields defn.globalMsgNum)
        defn.fields s.offset [] with
    | none => .error "read out of bounds"
    | some (off1, msg0) =>
      let off2 := off1 + devFieldsSize defn.devFields
      let msg1 :=
        match compTs with
        | some ts => if getKey msg0 "timestamp" = none then setKey msg0 "timestamp" ts else msg0
        | none => msg0
      let newLast :=
        match getKey msg1 "timestamp" with
        | some t => t
        | none => s.lastTimestamp
      let msgs :=
        match fitMsgName defn.globalMsgNum with
        | some ty => pushMsg s.messages ty msg1
        | none => s.messages
      .ok { offset := off2, definitions := s.definitions, messages := msgs,
            lastTimestamp := newLast }

/-- fit-parser.js lines 94-116: parse one record, dispatching on the header
byte. -/
def parseRecord (bytes : List ℕ) (s : PState) : Except String PState :=
  match readU8 bytes s.offset with
  | none => .error "read out of bounds"
  | some header =>
    let s1 : PState := { s with offset := s.offset + 1 }
    if Nat.land header 0x80 ≠ 0 then
      let localType := Nat.land (header >>> 5) 0x03
      let timeOffset := Nat.land header 0x1F
      let ts := compressedTs s1.lastTimestamp timeOffset
      parseDataMessage bytes { s1 with lastTimestamp := ts } localType (some ts)
    else if Nat.land header 0x40 ≠ 0 then
      parseDefinition bytes s1 (Nat.land header 0x0F) (Nat.land header 0x20 ≠ 0)
    else
      parseDataMessage bytes s1 (Nat.land header 0x0F) none

deriving instance DecidableEq for Except

/-- fit-parser.js lines 69-81: the decode loop. A mid-stream decode error is
swallowed (try/catch with break) and the state decoded so far is returned.
The fuel argument only bounds the iteration count so the recursion is
structural; `fitParse` passes `dataEnd` fuel, which cannot run out because
every successful record consumes at least one byte of the cursor. -/
def parseLoop (bytes : List ℕ) (dataEnd : ℕ) : ℕ → PState → PState
  | 0, s => s
  | fuel + 1, s =>
    if s.offset < dataEnd then
      match parseRecord bytes s with
      | .error _ => s
      | .ok s' => parseLoop bytes dataEnd fuel s'
    else s

/-- fit-parser.js lines 83-92: header size byte, little-endian payload size,
4-byte ASCII signature check at offset 8 (an out-of-range Uint8Array index in
JavaScript yields NUL characters, failing the signature comparison, which the
getElem? equations model). -/
def parseHeader (bytes : List ℕ) : Except String (ℕ × ℕ) :=
  match readU8 bytes 0 with
  | none => .error "read out of bounds"
  | some headerSize =>
    match readU32 bytes 4 true with
    | none => .error "read out of bounds"
    | some dataSize =>
      if bytes[8]? = some 0x2E ∧ bytes[9]? = some 0x46 ∧
          bytes[10]? = some 0x49 ∧ bytes[11]? = some 0x54 then
        .ok (headerSize, dataSize)
      else .error "Not a valid FIT file"

/-- fit-parser.js lines 69-81: the whole decode pass, returning the final
parser state (messages plus cursor). -/
def fitParse (bytes : List ℕ) : Except String PState :=
  match parseHeader bytes with
  | .error e => .error e
  | .ok (headerSize, dataSize) =>
    .ok (parseLoop bytes (headerSize + dataSize) (headerSize + dataSize)
      { offset := headerSize, definitions := [], messages := [],
        lastTimestamp := 0 })

/-- The protocol header validates: correct 4-byte ASCII signature ".FIT" at
byte offset 8 (which also implies the buffer covers the fixed-size header). -/
def headerValid (bytes : List ℕ) : Prop :=
  bytes[8]? = some 0x2E ∧ bytes[9]? = some 0x46 ∧
    bytes[10]? = some 0x49 ∧ bytes[11]? = some 0x54

instance (bytes : List ℕ) : Decidable (headerValid bytes) := by
  unfold headerValid; infer_instance

/-! ## JSON activity adapter, lap part (src/content.js lines 149-165) -/

/-- One lap row of the splits structure, already JSON-parsed. `startTimeGMT`
carries the epoch-milliseconds value that `new Date(...).getTime()` yields
for the wall-clock string (the string-to-date conversion itself is external
to the arithmetic under test). -/
structure JsonLap where
  startTimeGMT : Option ℚ := none
  startTimeInSeconds : Option ℚ := none
  duration : Option ℚ := none
  elapsedDuration : Option ℚ := none
  distance : Option ℚ := none
  averageHR : Option ℚ := none
  averageHeartRate : Option ℚ := none
  maxHR : Option ℚ := none
  maxHeartRate : Option ℚ := none
  averageSpeed : Option ℚ := none
deriving DecidableEq

/-- JavaScript `a || b` with a number result: 0, null and undefined fall
through to the default. -/
def jsOr (a : Option ℚ) (b : ℚ) : ℚ :=
  match a with
  | some v => if v = 0 then b else v
  | none => b

/-- JavaScript `a || b` keeping absence: 0, null and undefined fall through. -/
def jsOrNull (a : Option ℚ) (b : Option ℚ) : Option ℚ :=
  match a with
  | some v => if v = 0 then b else some v
  | none => b

/-- content.js lines 151-164: one lap of `parseJsonActivity`. -/
def parseJsonLap (lap : JsonLap) : LapR :=
  let dur : ℚ := jsOr lap.duration (jsOr lap.elapsedDuration 0)
  let start_time : Option ℚ :=
    match lap.startTimeGMT with
    | some ms => some (ms / 1000)
    | none => lap.startTimeInSeconds
  let timestamp : ℚ :=
    match lap.startTimeGMT with
    | some ms => ms / 1000 + dur
    | none => jsOr lap.startTimeInSeconds 0 + dur
  { start_time := start_time
    timestamp := some timestamp
    total_timer_time := some dur
    total_distance := some (jsOr lap.distance 0)
    avg_heart_rate := jsOrNull lap.averageHR (jsOrNull lap.averageHeartRate none)
    max_heart_rate := jsOrNull lap.maxHR (jsOrNull lap.maxHeartRate none)
    avg_speed := jsOrNull lap.averageSpeed none }

/-! ## Well-formed protocol streams for claim C2: an abstract record syntax
and its byte-level encoding, against which the decoder is run. -/

/-- A value as two bytes in the given byte order. -/
def u16Bytes (v : ℕ) (le : Bool) : List ℕ :=
  if le then [v % 256, v / 256] else [v / 256, v % 256]

/-- A value as four little-endian bytes. -/
def u32Bytes (v : ℕ) : List ℕ :=
  [v % 256, v / 256 % 256, v / 65536 % 256, v / 16777216]

/-- The byte width of each DataView read function. -/
def rkSize (rk : ReadKind) : ℕ :=
  match rk with
  | .u8 => 1
  | .i8 => 1
  | .u16 => 2
  | .i16 => 2
  | .u32 => 4
  | .i32 => 4
  | .f32 => 4
  | .f64 => 8

/-- Consecutive (a, b, c) byte triples, as a definition message stores its
field declarations. -/
def triplesBytes : List (ℕ × ℕ × ℕ) → List ℕ
  | [] => []
  | t :: rest => t.1 :: t.2.1 :: t.2.2 :: triplesBytes rest

/-- The triples of a field list. -/
def fieldTriples (l : List FieldDef) : List (ℕ × ℕ × ℕ) :=
  l.map fun f => (f.num, f.size, f.baseType)

/-- The triples of a developer-field list. -/
def devTriples (l : List DevFieldDef) : List (ℕ × ℕ × ℕ) :=
  l.map fun d => (d.num, d.size, d.devIdx)

/-- Total declared byte size of a field list. -/
def fieldsSize (l : List FieldDef) : ℕ := l.foldl (fun a f => a + f.size) 0

/-- Total payload size of one data record under a StreamDefinition. -/
def defSize (d : MsgDef) : ℕ := fieldsSize d.fields + devFieldsSize d.devFields

/-- One abstract record of a protocol stream. -/
inductive AbsRecord where
  | defn (localType : ℕ) (arch : ℕ) (globalMsgNum : ℕ)
      (fields : List FieldDef) (devFields : List DevFieldDef) (hasDev : Bool)
  | data (localType : ℕ) (payload : List ℕ)
  | compressed (localType : ℕ) (timeOffset : ℕ) (payload : List ℕ)

/-- The byte encoding of one record (header byte plus body). -/
def encodeRecord : AbsRecord → List ℕ
  | .defn lt arch g fields devFields hasDev =>
    (64 + (if hasDev then 32 else 0) + lt) :: 0 :: arch ::
      (u16Bytes g (arch == 0) ++
        (fields.length :: (triplesBytes (fieldTriples fields) ++
          (if hasDev then devFields.length :: triplesBytes (devTriples devFields)
           else []))))
  | .data lt payload => lt :: payload
  | .compressed lt timeOffset payload => (128 + 32 * lt + timeOffset) :: payload

/-- The byte encoding of a stream of records. -/
def encodeStream : List AbsRecord → List ℕ
  | [] => []
  | r :: rs => encodeRecord r ++ encodeStream rs

/-- How one record updates the definition registry (definition records
redeclare their local type; data records leave it unchanged). -/
def stepEnv (env : List (ℕ × MsgDef)) : AbsRecord → List (ℕ × MsgDef)
  | .defn lt arch g fields devFields _ => assocSet env lt ⟨g, arch == 0, fields, devFields⟩
  | .data _ _ => env
  | .compressed _ _ _ => env

/-- Well-formedness of one record against the current definitions: header
fields fit their bit widths, bytes are bytes, and a data record carries
exactly the payload its StreamDefinition declares. -/
def WFRecord (env : List (ℕ × MsgDef)) : AbsRecord → Prop
  | .defn lt arch g fields devFields hasDev =>
    lt < 16 ∧ arch < 256 ∧ g < 65536 ∧ fields.length < 256 ∧ devFields.length < 256 ∧
      (∀ f ∈ fields, f.num < 256 ∧ f.size < 256 ∧ f.baseType < 256) ∧
      (∀ d ∈ devFields, d.num < 256 ∧ d.size < 256 ∧ d.devIdx < 256) ∧
      (hasDev = false → devFields = [])
  | .data lt payload =>
    lt < 16 ∧ (∀ b ∈ payload, b < 256) ∧
      ∃ d, assocGet env lt = some d ∧ payload.length = defSize d
  | .compressed lt timeOffset payload =>
    lt < 4 ∧ timeOffset < 32 ∧ (∀ b ∈ payload, b < 256) ∧
      ∃ d, assocGet env lt = some d ∧ payload.length = defSize d

/-- Well-formedness of a stream, threading the definition registry. -/
def WFStream : List (ℕ × MsgDef) → List AbsRecord → Prop
  | _, [] => True
  | env, r :: rs => WFRecord env r ∧ WFStream (stepEnv env r) rs

/-- A whole file: header-size byte, three reserved bytes, little-endian
payload size, ".FIT" signature, optional header padding, then the payload. -/
def mkFitStream (hs : ℕ) (rs : List AbsRecord) : List ℕ :=
  hs :: 0 :: 0 :: 0 ::
    (u32Bytes (encodeStream rs).length ++
      ((0x2E : ℕ) :: 0x46 :: 0x49 :: 0x54 ::
        (List.replicate (hs - 12) 0 ++ encodeStream rs)))

/-- The bytes of `chunk` occupy positions p, ..., p + chunk.length - 1 of the
buffer. -/
def ChunkAt (bytes : List ℕ) (p : ℕ) (chunk : List ℕ) : Prop :=
  ∃ rest, bytes.drop p = chunk ++ rest

/-- Boolean check used to verify the BASE_TYPES table rows: if a row has a
read function, its declared size equals the width of that read function. -/
def rkSizeOk (o : Option BaseTypeInfo) : Bool :=
  match o with
  | some t =>
    match t.read with
    | some r => rkSize r == t.size
    | none => true
  | none => true

/-- A small well-formed stream: one definition (message 20, a single uint8
heart-rate field), then one data record for it. -/
def c2Rs : List AbsRecord :=
  [.defn 0 0 20 [⟨3, 1, 2⟩] [] false, .data 0 [100]]

/-! ### Spec-side definitions and concrete instances for the reconciler claims -/

def c5Lap : LapR := { total_distance := some 1000 }

/-- A record 9.9 m beyond the window end. -/
def c5rIn : RecordR := { distance := some (10099/10) }

/-- A record 10.1 m beyond the window end. -/
def c5rOut : RecordR := { distance := some (10101/10) }

def c6Lap : LapR := { start_time := some 100, timestamp := some 200 }

def c6rIn : RecordR := { timestamp := some 150 }

def c6rOut : RecordR := { timestamp := some 250 }

/-- The spec rule for timeToMinHR as literally claimed: scan the matched
records in ORIGINAL input-record order for the first one whose heart rate
equals the lap minimum heart rate (the minimum over matched records with a
present, strictly positive heart rate). -/
def timeToMinHRSpecOrig (laps : List LapR) (records : List RecordR) (i : ℕ) :
    Option ℚ :=
  let lap := laps.getD i {}
  let matched :=
    lapMatched lap ((lapBounds laps).getD i (0, 0)) records (sortRecords records)
  match ((hrFilter matched).map fun r => r.heart_rate.getD 0).min? with
  | none => none
  | some m =>
    match records.find? fun r => decide (r ∈ matched) && decide (r.heart_rate = some m) with
    | some r =>
      match r.timestamp, lap.start_time with
      | some t, some s => some ((jsRound (t - s) : ℤ) : ℚ)
      | _, _ => none
    | none => none

/-- The amended rule: the scan runs over the matched records in MATCHED order
(ascending distance for distance-based matching; original order only under
the timestamp fallback). -/
def timeToMinHRSpecMatched (laps : List LapR) (records : List RecordR) (i : ℕ) :
    Option ℚ :=
  let lap := laps.getD i {}
  let matched :=
    lapMatched lap ((lapBounds laps).getD i (0, 0)) records (sortRecords records)
  match ((hrFilter matched).map fun r => r.heart_rate.getD 0).min? with
  | none => none
  | some m =>
    match matched.find? fun r => decide (r.heart_rate = some m) with
    | some r =>
      match r.timestamp, lap.start_time with
      | some t, some s => some ((jsRound (t - s) : ℤ) : ℚ)
      | _, _ => none
    | none => none

def c1Lap : LapR :=
  { start_time := some 0, timestamp := some 600,
    total_timer_time := some 600, total_distance := some 100 }

/-- First in input order: 60 m, HR 50, t = 1000. -/
def c1r0 : RecordR :=
  { timestamp := some 1000, heart_rate := some 50, distance := some 60 }

/-- Second in input order but earlier by distance: 40 m, HR 50, t = 2000. -/
def c1r1 : RecordR :=
  { timestamp := some 2000, heart_rate := some 50, distance := some 40 }

/-- The demonstration stream for C4: a valid 12-byte header, one definition
(local type 0, message 20, one uint8 heart_rate field), one good data record
(heart rate 100), then a data record referencing the undefined local type 1. -/
def c4Stream : List ℕ :=
  [12, 0, 0, 0, 12, 0, 0, 0, 0x2E, 0x46, 0x49, 0x54,
   0x40, 0, 0, 20, 0, 1, 3, 1, 2,
   0, 100,
   1]

def c7Defs : List (ℕ × MsgDef) := [(0, ⟨20, true, [⟨3, 1, 2⟩], []⟩)]

def c7State : PState :=
  { offset := 0, definitions := c7Defs, messages := [], lastTimestamp := 0 }

/-! ## ZIP container extraction (src/content.js lines 11-57) -/

/-- The outcome of extraction: bytes returned verbatim (method 0), or the
compressed bytes handed to the external raw-deflate primitive (method 8,
DecompressionStream, which is outside the core under test). -/
inductive ExtractOut where
  | stored (data : List ℕ)
  | deflated (compressed : List ℕ)
deriving DecidableEq

/-- content.js line 45: `name.toLowerCase().endsWith(".fit")`, modelled at
the byte level for ASCII names: the last four bytes are ".fit" up to case. -/
def isFitName (name : List ℕ) : Bool :=
  match name.reverse with
  | t :: i :: f :: d :: _ =>
    (t == 116 || t == 84) && (i == 105 || i == 73) &&
      (f == 102 || f == 70) && d == 46
  | _ => false

/-- content.js lines 16-21: the backward scan for the end-of-central-directory
signature, checking i = lo + k, lo + k - 1, ..., lo. -/
def findEocdFrom (bytes : List ℕ) (lo : ℕ) : ℕ → Option ℕ
  | 0 => if readU32 bytes lo true = some 0x06054b50 then some lo else none
  | k + 1 =>
    if readU32 bytes (lo + k + 1) true = some 0x06054b50 then some (lo + k + 1)
    else findEocdFrom bytes lo k

/-- content.js lines 14-22: locate the end-of-central-directory record,
scanning backward from length - 22 to max(0, length - 65557). -/
def findEocd (bytes : List ℕ) : Option ℕ :=
  if bytes.length < 22 then none
  else findEocdFrom bytes (bytes.length - 65557)
    (bytes.length - 22 - (bytes.length - 65557))

/-- content.js lines 27-55: walk the declared number of central-directory
entries; extract at the first entry whose name matches, reading its local
file header; unknown compression methods fail only for that entry. -/
def walkCD (bytes : List ℕ) : ℕ → ℕ → Except String ExtractOut
  | _, 0 => .error "No .fit file found in ZIP"
  | offset, n + 1 =>
    match readU32 bytes offset true with
    | none => .error "read out of bounds"
    | some sig =>
      if sig ≠ 0x02014b50 then .error "Invalid central directory"
      else
        match readU16 bytes (offset + 10) true, readU32 bytes (offset + 20) true,
            readU16 bytes (offset + 28) true, readU16 bytes (offset + 30) true,
            readU16 bytes (offset + 32) true, readU32 bytes (offset + 42) true with
        | some method, some compSize, some nameLen, some extraLen,
            some commentLen, some localOffset =>
          let name := (bytes.drop (offset + 46)).take nameLen
          if isFitName name then
            match readU16 bytes (localOffset + 26) true,
                readU16 bytes (localOffset + 28) true with
            | some localNameLen, some localExtraLen =>
              let dataStart := localOffset + 30 + localNameLen + localExtraLen
              let compressed := (bytes.drop dataStart).take compSize
              if method = 0 then .ok (.stored compressed)
              else if method = 8 then .ok (.deflated compressed)
              else .error ("Unsupported compression method: " ++ toString method)
            | _, _ => .error "read out of bounds"
          else walkCD bytes (offset + 46 + nameLen + extraLen + commentLen) n
        | _, _, _, _, _, _ => .error "read out of bounds"

/-- content.js lines 11-57: the whole extractor. -/
def extractFitFromZip (bytes : List ℕ) : Except String ExtractOut :=
  match findEocd bytes with
  | none => .error "Invalid ZIP file"
  | some eocd =>
    match readU32 bytes (eocd + 16) true, readU16 bytes (eocd + 10) true with
    | some cdOffset, some cdEntries => walkCD bytes cdOffset cdEntries
    | _, _ => .error "read out of bounds"

/-! ### An abstract archive and its encoding, for claim C9 -/

/-- One archive member: its (already compressed) payload and method. -/
structure ZipEntry where
  name : List ℕ
  method : ℕ
  data : List ℕ
deriving DecidableEq

/-- A local file header (30 bytes) followed by name and payload. The fields
the extractor never reads are zero. -/
def localChunk (e : ZipEntry) : List ℕ :=
  0x50 :: 0x4B :: 0x03 :: 0x04 ::
    (List.replicate 22 0 ++ (u16Bytes e.name.length true ++ (u16Bytes 0 true ++
      (e.name ++ e.data))))

/-- A central-directory entry (46 bytes plus name) for an entry whose local
header sits at `lo`. -/
def centralChunk (e : ZipEntry) (lo : ℕ) : List ℕ :=
  0x50 :: 0x4B :: 0x01 :: 0x02 ::
    (List.replicate 6 0 ++ (u16Bytes e.method true ++ (List.replicate 8 0 ++
      (u32Bytes e.data.length ++ (u32Bytes 0 ++ (u16Bytes e.name.length true ++
        (u16Bytes 0 true ++ (u16Bytes 0 true ++ (List.replicate 8 0 ++
          (u32Bytes lo ++ e.name))))))))))

/-- The concatenated local file records. -/
def localsRegion : List ZipEntry → List ℕ
  | [] => []
  | e :: rest => localChunk e ++ localsRegion rest

/-- Each entry paired with the offset of its local header. -/
def entriesWithOffsets (start : ℕ) : List ZipEntry → List (ZipEntry × ℕ)
  | [] => []
  | e :: rest =>
    (e, start) :: entriesWithOffsets (start + 30 + e.name.length + e.data.length) rest

/-- The concatenated central-directory entries. -/
def centralRegion : List (ZipEntry × ℕ) → List ℕ
  | [] => []
  | p :: rest => centralChunk p.1 p.2 ++ centralRegion rest

/-- The 22-byte end-of-central-directory record. -/
def eocdChunk (cdSize cdOffset cdEntries : ℕ) : List ℕ :=
  0x50 :: 0x4B :: 0x05 :: 0x06 ::
    (List.replicate 4 0 ++ (u16Bytes cdEntries true ++ (u16Bytes cdEntries true ++
      (u32Bytes cdSize ++ (u32Bytes cdOffset ++ u16Bytes 0 true)))))

/-- A whole archive: local records, central directory, end record. -/
def mkZip (entries : List ZipEntry) : List ℕ :=
  localsRegion entries ++
    (centralRegion (entriesWithOffsets 0 entries) ++
      eocdChunk (centralRegion (entriesWithOffsets 0 entries)).length
        (localsRegion entries).length entries.length)

/-- What the spec of the walk says the result is: dispatch on the method of
the FIRST name-matching entry, in directory order. -/
def expectedExtract (entries : List ZipEntry) : Except String ExtractOut :=
  match entries.find? (fun e => isFitName e.name) with
  | none => .error "No .fit file found in ZIP"
  | some e =>
    if e.method = 0 then .ok (.stored e.data)
    else if e.method = 8 then .ok (.deflated e.data)
    else .error ("Unsupported compression method: " ++ toString e.method)

/-- Encoding well-formedness: names and payloads fit their u16/u32 fields,
and all stored values are bytes. -/
def WFZip (entries : List ZipEntry) : Prop :=
  (∀ e ∈ entries, e.name.length < 65536 ∧ e.data.length < 4294967296 ∧
    e.method < 65536 ∧ (∀ b ∈ e.name, b < 256) ∧ (∀ b ∈ e.data, b < 256)) ∧
  entries.length < 65536 ∧ (mkZip entries).length < 4294967296

/-- A three-entry archive: a text file, then "Activity.FIT" stored, then a
second .fit entry with an unsupported method that must never be examined. -/
def c9Entries : List ZipEntry :=
  [⟨[110, 111, 116, 101, 115, 46, 116, 120, 116], 0, [9, 9]⟩,
   ⟨[65, 99, 116, 105, 118, 105, 116, 121, 46, 70, 73, 84], 0, [1, 2, 3]⟩,
   ⟨[111, 116, 104, 101, 114, 46, 102, 105, 116], 99, [7]⟩]

/-! ### Helper lemmas -/

/-! ### Helper lemmas for the reconciler claims -/

/-- Finding in a filtered list with predicate `q` is finding in the plain list
with a stronger predicate, when the predicates are appropriately related. -/
theorem find?_filter_of_imp {α : Type} (l : List α) (p q q' : α → Bool)
    (h1 : ∀ a, q' a = true → p a = true ∧ q a = true)
    (h2 : ∀ a, p a = true → q a = true → q' a = true) :
    (l.filter p).find? q = l.find? q' := by
  induction l with
  | nil => rfl
  | cons a l ih =>
    by_cases hp : p a = true
    · rw [List.filter_cons_of_pos hp]
      by_cases hq : q a = true
      · rw [List.find?_cons_of_pos _ hq, List.find?_cons_of_pos _ (h2 a hp hq)]
      · have hq' : ¬ q' a = true := fun hcon => hq (h1 a hcon).2
        rw [List.find?_cons_of_neg _ hq, List.find?_cons_of_neg _ hq']
        exact ih
    · have hq' : ¬ q' a = true := fun hcon => hp (h1 a hcon).1
      rw [List.filter_cons_of_neg (by simpa using hp), List.find?_cons_of_neg _ hq']
      exact ih


/-! ### Reconciler claims -/

/-! ### Claim C8 -/

/-- Claim C8: for all inputs the reconciler returns exactly one LapStat per
input lap, in input lap order, with lapNumber the 1-based position; absent
data yields null fields rather than errors (the model is a total function
over Option-valued fields). -/
theorem c8_reconciler_total (laps : List LapR) (records : List RecordR) :
    (computeLapStats laps records).length = laps.length ∧
    ∀ i, i < laps.length →
      ((computeLapStats laps records).getD i default).lapNumber = i + 1 := by
  constructor
  · simp [computeLapStats]
  · intro i hi
    simp [computeLapStats, List.getD_eq_getElem?_getD, List.getElem?_map,
      List.getElem?_range hi, lapStatOf]

/-- Witness for c8_reconciler_total: a lap with every field absent still
produces a LapStat, and lap numbers are positional. -/
theorem c8_reconciler_total_witness :
    (computeLapStats [{}, { total_distance := some 100 }] []).length = 2 ∧
    ((computeLapStats [{}, { total_distance := some 100 }] []).getD 1 default).lapNumber = 2 :=
  ⟨(c8_reconciler_total [{}, { total_distance := some 100 }] []).1,
   (c8_reconciler_total [{}, { total_distance := some 100 }] []).2 1 (by decide)⟩

/-- Claim C5: for every lap window built from cumulative lap distances,
distance-based matching selects exactly the records with a present distance d
satisfying start - 10 <= d <= end + 10. -/
theorem c5_distance_window (laps : List LapR) (records : List RecordR)
    (bound : ℚ × ℚ) (h : bound ∈ lapBounds laps) :
    (distanceMatched bound (sortRecords records)).Perm
      (records.filter fun r =>
        match r.distance with
        | some d => decide (bound.1 - 10 ≤ d ∧ d ≤ bound.2 + 10)
        | none => false) := by
  unfold distanceMatched sortRecords
  refine (List.Perm.filter _ (List.perm_insertionSort _ _)).trans ?_
  rw [List.filter_filter]
  refine List.Perm.of_eq (List.filter_congr ?_)
  intro r _
  cases hd : r.distance with
  | none => simp [hd]
  | some d =>
    simp only [recDist, hd, Option.isSome_some, Bool.and_true, Option.getD_some]
    rcases Decidable.em (bound.1 - 10 ≤ d) with h1 | h1 <;>
      rcases Decidable.em (d ≤ bound.2 + 10) with h2 | h2 <;>
      simp [h1, h2]

/-- Witness for c5_distance_window: with the single-lap window (0, 1000), the
record at 1009.9 m is selected and the record at 1010.1 m is not. -/
theorem c5_distance_window_witness :
    (distanceMatched (0, 1000) (sortRecords [c5rIn, c5rOut])).Perm [c5rIn] :=
  (c5_distance_window [c5Lap] [c5rIn, c5rOut] (0, 1000) (by decide)).trans (by decide)

/-- Claim C6: the timestamp fallback fires iff distance matching selected zero
records and the lap has both timestamps; when it fires the matched set is
exactly the records with a present timestamp inside the lap time window,
replacing (not merging with) the empty distance selection. -/
theorem c6_timestamp_fallback (laps : List LapR) (records : List RecordR)
    (i : ℕ) (h : i < laps.length) :
    (∀ s e, (laps.getD i {}).start_time = some s →
        (laps.getD i {}).timestamp = some e →
        distanceMatched ((lapBounds laps).getD i (0, 0)) (sortRecords records) = [] →
        lapMatched (laps.getD i {}) ((lapBounds laps).getD i (0, 0)) records
            (sortRecords records) =
          records.filter fun r =>
            match r.timestamp with
            | some t => decide (s ≤ t ∧ t ≤ e)
            | none => false) ∧
    (¬(distanceMatched ((lapBounds laps).getD i (0, 0)) (sortRecords records) = [] ∧
          (laps.getD i {}).start_time.isSome = true ∧
          (laps.getD i {}).timestamp.isSome = true) →
      lapMatched (laps.getD i {}) ((lapBounds laps).getD i (0, 0)) records
          (sortRecords records) =
        distanceMatched ((lapBounds laps).getD i (0, 0)) (sortRecords records)) := by
  generalize laps.getD i ({} : LapR) = lap
  generalize (lapBounds laps).getD i ((0 : ℚ), (0 : ℚ)) = bound
  constructor
  · intro s e hs he hempty
    unfold lapMatched
    rw [hempty]
    simp only [List.isEmpty_nil, hs, he, Option.isSome_some, Bool.and_self, Bool.and_true,
      if_true]
    unfold tsMatched
    refine List.filter_congr ?_
    intro r _
    cases ht : r.timestamp with
    | none => simp [hs, he]
    | some t =>
      rcases Decidable.em (s ≤ t) with h1 | h1 <;>
        rcases Decidable.em (t ≤ e) with h2 | h2 <;>
        simp [hs, he, h1, h2]
  · intro hn
    unfold lapMatched
    rw [if_neg]
    intro hcon
    apply hn
    have h1 := Bool.and_eq_true _ _ |>.mp hcon
    have h2 := Bool.and_eq_true _ _ |>.mp h1.1
    exact ⟨List.isEmpty_iff.mp h2.1, h2.2, h1.2⟩

/-- Witness for c6_timestamp_fallback: no record has a distance, so distance
matching is empty and the timestamp window [100, 200] selects exactly the
record at t = 150. -/
theorem c6_timestamp_fallback_witness :
    lapMatched c6Lap (0, 0) [c6rIn, c6rOut] (sortRecords [c6rIn, c6rOut]) = [c6rIn] := by
  have h := (c6_timestamp_fallback [c6Lap] [c6rIn, c6rOut] 0 (by decide)).1
    100 200 rfl rfl (by decide)
  exact h.trans (by decide)

/-- Counterexample to claim C1 as stated: with two matched records tied at the
minimum heart rate but out of distance order, the code takes the first in
distance-sorted order (t = 2000), while the claimed original-input-order rule
takes t = 1000. -/
theorem c1_counterexample :
    ((computeLapStats [c1Lap] [c1r0, c1r1]).map fun s => s.timeToMinHR) = [some 2000] ∧
    timeToMinHRSpecOrig [c1Lap] [c1r0, c1r1] 0 = some 1000 ∧
    some (2000 : ℚ) ≠ some (1000 : ℚ) := by
  refine ⟨by decide, by decide, by decide⟩

/-- The timeToMinHR component computed by hrStats equals the amended
first-minimum rule evaluated over the matched list in matched order. -/
theorem hrStats_timeToMinHR (lap : LapR) (matched : List RecordR) :
    (hrStats lap matched).2.2.2 =
      (match ((hrFilter matched).map fun r => r.heart_rate.getD 0).min? with
       | none => none
       | some m =>
         match matched.find? fun r => decide (r.heart_rate = some m) with
         | some r =>
           match r.timestamp, lap.start_time with
           | some t, some s => some ((jsRound (t - s) : ℤ) : ℚ)
           | _, _ => none
         | none => none) := by
  cases hmin : ((hrFilter matched).map fun r => r.heart_rate.getD 0).min? with
  | none =>
    have hempty : ((hrFilter matched).map fun r => r.heart_rate.getD 0) = [] :=
      List.min?_eq_none_iff.mp hmin
    unfold hrStats
    simp [hempty]
  | some m =>
    have hmem : m ∈ (hrFilter matched).map fun r => r.heart_rate.getD 0 :=
      List.min?_mem (fun a b => min_choice a b) hmin
    have hne : ((hrFilter matched).map fun r => r.heart_rate.getD 0).isEmpty = false := by
      cases hl : (hrFilter matched).map fun r => r.heart_rate.getD 0 with
      | nil => rw [hl] at hmem; cases hmem
      | cons a l => simp
    obtain ⟨r0, hr0mem, hr0⟩ := List.mem_map.mp hmem
    have hr0pred := (List.mem_filter.mp hr0mem).2
    have hmpos : 0 < m := by
      have := (Bool.and_eq_true _ _ |>.mp hr0pred).2
      rw [← hr0]
      exact of_decide_eq_true this
    have hfind : (List.filter
          (fun r => r.heart_rate.isSome && decide (0 < r.heart_rate.getD 0)) matched).find?
            (fun r => decide (r.heart_rate.getD 0 = m)) =
        matched.find? (fun r => decide (r.heart_rate = some m)) := by
      refine find?_filter_of_imp matched _ _ _ ?_ ?_
      · intro a ha
        have ha' : a.heart_rate = some m := of_decide_eq_true ha
        refine ⟨?_, ?_⟩
        · simp [ha', hmpos]
        · simp [ha']
      · intro a hp hq
        have hsome := (Bool.and_eq_true _ _ |>.mp hp).1
        obtain ⟨v, hv⟩ := Option.isSome_iff_exists.mp hsome
        have : a.heart_rate.getD 0 = m := of_decide_eq_true hq
        rw [hv] at this ⊢
        simp at this
        simp [this]
    unfold hrStats
    rw [hrFilter] at hmin hne ⊢
    simp only [hmin, hne, Bool.false_eq_true, if_false, Option.getD_some]
    rw [hfind]

/-- Claim C1 (amended): timeToMinHR is derived from the first matched record
in MATCHED order — ascending distance (stable) for distance-based matching,
original input order under the timestamp fallback — whose heart rate equals
the lap minimum heart rate: that record timestamp minus the lap start time,
rounded to the nearest second, and null if either timestamp is unavailable.
(The claim as stated — original input-record order even for distance-based
matches — is refuted by c1_counterexample.) -/
theorem c1_timeToMinHR_matched_order (laps : List LapR) (records : List RecordR)
    (i : ℕ) (h : i < laps.length) :
    ((computeLapStats laps records).getD i default).timeToMinHR =
      timeToMinHRSpecMatched laps records i := by
  have hstat : (computeLapStats laps records).getD i default =
      lapStatOf i (laps.getD i {}) ((lapBounds laps).getD i (0, 0)) records
        (sortRecords records) := by
    simp [computeLapStats, List.getD_eq_getElem?_getD, List.getElem?_map,
      List.getElem?_range h]
  rw [hstat]
  exact hrStats_timeToMinHR (laps.getD i {})
    (lapMatched (laps.getD i {}) ((lapBounds laps).getD i (0, 0)) records
      (sortRecords records))

/-- Witness for c1_timeToMinHR_matched_order at the two-record tie input:
both sides give t = 2000 (the record that is first by distance). -/
theorem c1_timeToMinHR_matched_order_witness :
    ((computeLapStats [c1Lap] [c1r0, c1r1]).getD 0 default).timeToMinHR = some 2000 ∧
    timeToMinHRSpecMatched [c1Lap] [c1r0, c1r1] 0 = some 2000 :=
  ⟨(c1_timeToMinHR_matched_order [c1Lap] [c1r0, c1r1] 0 (by decide)).trans (by decide),
   by decide⟩

/-! ### Bit-level helper lemmas -/

/-- The Batteries floor on ℚ agrees with the Mathlib floor. -/
theorem ratFloor_eq_intFloor (q : ℚ) : q.floor = ⌊q⌋ := by
  rw [Rat.floor_def', Rat.floor_def]

/-- jsTrunc is the identity on natural numbers. -/
theorem jsTrunc_natCast (n : ℕ) : jsTrunc (n : ℚ) = n := by
  unfold jsTrunc
  rw [if_pos (by positivity), ratFloor_eq_intFloor]
  exact_mod_cast Int.floor_natCast n

/-- ToUint32 of a natural number is reduction mod 2^32. -/
theorem toUint32_natCast (n : ℕ) : toUint32 (n : ℚ) = n % 2 ^ 32 := by
  unfold toUint32
  rw [jsTrunc_natCast]
  omega

/-- Masking with 0xFFFFFFE0 clears the low five bits. -/
theorem land_mask_high (T : ℕ) (hT : T < 2 ^ 32) :
    Nat.land T 4294967264 = T - T % 32 := by
  have h32 : T - T % 32 = (T >>> 5) <<< 5 := by
    rw [Nat.shiftLeft_eq, Nat.shiftRight_eq_div_pow]
    omega
  have hmask : (4294967264 : ℕ) = (2 ^ 27 - 1) <<< 5 := by decide
  rw [h32, hmask]
  apply Nat.eq_of_testBit_eq
  intro i
  rw [show Nat.land T ((2 ^ 27 - 1) <<< 5) = T &&& ((2 ^ 27 - 1) <<< 5) from rfl]
  simp only [Nat.testBit_and, Nat.testBit_shiftLeft, Nat.testBit_shiftRight,
    Nat.testBit_two_pow_sub_one]
  by_cases h5 : 5 ≤ i
  · by_cases h27 : i - 5 < 27
    · simp [h5, h27, show 5 + (i - 5) = i by omega]
    · have hbit : T.testBit i = false :=
        Nat.testBit_lt_two_pow (by calc T < 2 ^ 32 := hT
                                     _ ≤ 2 ^ i := Nat.pow_le_pow_right (by omega) (by omega))
      simp [h5, h27, show 5 + (i - 5) = i by omega, hbit]
  · simp [h5]

/-- Masking with 0x1F is reduction mod 32. -/
theorem land_mask_low (T : ℕ) : Nat.land T 31 = T % 32 := by
  have : Nat.land T 31 = T &&& (2 ^ 5 - 1) := rfl
  rw [this, Nat.and_pow_two_sub_one_eq_mod]

/-! ### Claim C3 -/

/-- Claim C3 (amended): for a last full timestamp T in [0, 2^32) and a 5-bit
offset O, the decoded compressed timestamp equals
(T & ~0x1F) + O (+ 32 when O < T & 0x1F) PROVIDED T < 2^31; when T >= 2^31,
JavaScript evaluates T & ~0x1F through signed 32-bit coercion, so the base is
(T - T % 32) - 2^32. (The claim as stated, without the signed coercion, is
refuted by c3_counterexample.) -/
theorem c3_compressed_timestamp (T O : ℕ) (hT : T < 2 ^ 32) (hO : O < 32) :
    compressedTs (T : ℚ) O =
      (((if T < 2 ^ 31 then ((T : ℤ) - ((T % 32 : ℕ) : ℤ))
         else ((T : ℤ) - ((T % 32 : ℕ) : ℤ)) - 2 ^ 32) +
        (O : ℤ) + (if O < T % 32 then 32 else 0) : ℤ) : ℚ) := by
  unfold compressedTs jsAnd
  have hc : ((4294967264 : ℚ)) = ((4294967264 : ℕ) : ℚ) := by norm_num
  have hc2 : ((31 : ℚ)) = ((31 : ℕ) : ℚ) := by norm_num
  rw [hc, hc2, toUint32_natCast, toUint32_natCast, toUint32_natCast,
    Nat.mod_eq_of_lt hT, Nat.mod_eq_of_lt (by norm_num),
    Nat.mod_eq_of_lt (by norm_num), land_mask_high T hT, land_mask_low]
  have hmask : asInt32 (T - T % 32) =
      if T < 2 ^ 31 then ((T : ℤ) - ((T % 32 : ℕ) : ℤ))
      else ((T : ℤ) - ((T % 32 : ℕ) : ℤ)) - 2 ^ 32 := by
    unfold asInt32
    by_cases hlt : T < 2 ^ 31
    · rw [if_pos (by omega), if_pos hlt]
      omega
    · rw [if_neg (by omega), if_neg hlt]
      omega
  have hlow : asInt32 (T % 32) = ((T % 32 : ℕ) : ℤ) := by
    unfold asInt32
    rw [if_pos (by omega)]
  rw [hmask, hlow]
  by_cases hwrap : O < T % 32
  · rw [if_pos (by exact_mod_cast hwrap), if_pos hwrap]
    by_cases hlt : T < 2 ^ 31 <;> simp [hlt]
  · rw [if_neg (by exact_mod_cast hwrap), if_neg hwrap]
    by_cases hlt : T < 2 ^ 31 <;> simp [hlt]

/-- Counterexample to claim C3 as stated: at T = 2^31 (a representable uint32
timestamp) and O = 0, the code yields -2^31 through signed 32-bit masking,
not the claimed (T & ~0x1F) + O = 2^31. -/
theorem c3_counterexample :
    compressedTs ((2147483648 : ℕ) : ℚ) 0 = ((-2147483648 : ℤ) : ℚ) ∧
    ((2147483648 : ℕ) : ℤ) - (((2147483648 % 32 : ℕ)) : ℤ) + (0 : ℤ) =
      (2147483648 : ℤ) ∧
    ((-2147483648 : ℤ) : ℚ) ≠ ((2147483648 : ℤ) : ℚ) := by
  refine ⟨by decide, by decide, by decide⟩

/-- Witness for c3_compressed_timestamp: T = 1000 (low five bits 8), O = 5,
so the offset wraps and the result is 992 + 5 + 32 = 1029. -/
theorem c3_compressed_timestamp_witness :
    (1000 : ℕ) < 2 ^ 32 ∧ (5 : ℕ) < 32 ∧
    compressedTs ((1000 : ℕ) : ℚ) 5 = ((1029 : ℤ) : ℚ) :=
  ⟨by decide, by decide,
   (c3_compressed_timestamp 1000 5 (by decide) (by decide)).trans (by decide)⟩

/-- Claim C4: when the protocol header validates, a mid-stream decode failure
(including a data record whose local type has no prior StreamDefinition)
never raises out of the decoder; the pass returns, with the messages decoded
before the failure point (demonstrated on c4Stream, whose trailing record
references the undefined local type 1). -/
theorem c4_truncation_tolerant :
    (∀ bytes : List ℕ, headerValid bytes → (fitParse bytes).isOk = true) ∧
    (fitParse c4Stream).map (fun st => st.messages) =
      .ok [("record", [[("heart_rate", (100 : ℚ))]])] := by
  constructor
  · intro bytes h
    obtain ⟨h8, h9, h10, h11⟩ := h
    have hlen : 11 < bytes.length := by
      by_contra hc
      rw [List.getElem?_eq_none (by omega)] at h11
      cases h11
    have e0 : bytes[0]? = some bytes[0] := List.getElem?_eq_getElem (by omega)
    have e4 : bytes[4]? = some bytes[4] := List.getElem?_eq_getElem (by omega)
    have e5 : bytes[5]? = some bytes[5] := List.getElem?_eq_getElem (by omega)
    have e6 : bytes[6]? = some bytes[6] := List.getElem?_eq_getElem (by omega)
    have e7 : bytes[7]? = some bytes[7] := List.getElem?_eq_getElem (by omega)
    simp [fitParse, parseHeader, readU8, readU32, e0, e4, e5, e6, e7,
      h8, h9, h10, h11, Except.isOk, Except.toBool]
  · decide

/-- Witness for c4_truncation_tolerant on c4Stream. -/
theorem c4_truncation_tolerant_witness :
    headerValid c4Stream ∧ (fitParse c4Stream).isOk = true :=
  ⟨by decide, c4_truncation_tolerant.1 c4Stream (by decide)⟩

/-- Claim C7: decoding exactly the invalid-sentinel bit pattern of a base
type that defines one yields an absent value, never the literal sentinel;
and (concretely) a record message whose single uint8 heart_rate field holds
0xFF produces a canonical message with no heart_rate property at all. -/
theorem c7_sentinel_rejected :
    (∀ (bytes : List ℕ) (off : ℕ) (f : FieldDef) (le : Bool)
        (ti : BaseTypeInfo) (rk : ReadKind) (inv : ℤ),
        lookupBaseType f.baseType = some ti →
        ti.read = some rk →
        f.size = ti.size →
        ti.invalid = some inv →
        readRaw rk bytes off le = some inv →
        readField bytes off f le = some (off + f.size, none)) ∧
    parseDataMessage [255] c7State 0 none =
      .ok { offset := 1, definitions := c7Defs, messages := [("record", [[]])],
            lastTimestamp := 0 } := by
  constructor
  · intro bytes off f le ti rk inv hti hread hsz hinv hval
    unfold readField
    rw [hti]
    simp [hread, hsz, hval, hinv]
  · decide

/-- Witness for c7_sentinel_rejected: the 1-byte uint8 sentinel 0xFF decodes
to an absent value. -/
theorem c7_sentinel_rejected_witness :
    readField [255] 0 ⟨3, 1, 2⟩ true = some (0 + 1, none) :=
  c7_sentinel_rejected.1 [255] 0 ⟨3, 1, 2⟩ true ⟨1, some .u8, some 255⟩ .u8 255
    (by decide) rfl rfl rfl (by decide)

/-! ### Claim C10 -/

/-- Claim C10: every JSON-sourced lap gets end timestamp = start time plus
duration (duration falling back to elapsedDuration, then 0; an absent start
time is taken as 0 by the code), total_timer_time is that same duration, and
whenever the start time is present, end minus start equals total_timer_time,
so the reconciler timestamp-fallback window is exactly [start, start +
duration]. -/
theorem c10_json_end_time (lap : JsonLap) :
    (parseJsonLap lap).timestamp =
      some ((parseJsonLap lap).start_time.getD 0 +
        jsOr lap.duration (jsOr lap.elapsedDuration 0)) ∧
    (parseJsonLap lap).total_timer_time =
      some (jsOr lap.duration (jsOr lap.elapsedDuration 0)) ∧
    ∀ s, (parseJsonLap lap).start_time = some s →
      (parseJsonLap lap).timestamp =
        some (s + (parseJsonLap lap).total_timer_time.getD 0) := by
  refine ⟨?_, ?_, ?_⟩
  · unfold parseJsonLap
    cases hg : lap.startTimeGMT with
    | some ms => simp
    | none =>
      simp only [Option.getD]
      cases hs : lap.startTimeInSeconds with
      | some v =>
        by_cases hv : v = 0 <;> simp [jsOr, hv]
      | none => simp [jsOr]
  · unfold parseJsonLap
    cases lap.startTimeGMT <;> simp
  · intro s hs
    unfold parseJsonLap at hs ⊢
    cases hg : lap.startTimeGMT with
    | some ms =>
      rw [hg] at hs
      simp at hs
      simp [← hs]
    | none =>
      rw [hg] at hs
      simp at hs
      by_cases h0 : s = 0 <;> simp [hs, jsOr, h0]

/-- Witness for c10_json_end_time: a lap with a GMT start of 1700000000000 ms
and duration 600 s ends at 1700000600 s. -/
theorem c10_json_end_time_witness :
    (parseJsonLap { startTimeGMT := some 1700000000000, duration := some 600 }).timestamp =
      some 1700000600 :=
  ((c10_json_end_time { startTimeGMT := some 1700000000000, duration := some 600 }).1).trans
    (by decide)

/-! ### Byte-layout lemmas -/

/-- A chunk splits into its first part and the rest. -/
theorem chunkAt_append {bytes : List ℕ} {p : ℕ} {cs ds : List ℕ}
    (h : ChunkAt bytes p (cs ++ ds)) :
    ChunkAt bytes p cs ∧ ChunkAt bytes (p + cs.length) ds := by
  obtain ⟨rest, hr⟩ := h
  constructor
  · exact ⟨ds ++ rest, by rw [hr, List.append_assoc]⟩
  · refine ⟨rest, ?_⟩
    have : bytes.drop (p + cs.length) = (bytes.drop p).drop cs.length := by
      rw [List.drop_drop]
    rw [this, hr, List.append_assoc, List.drop_left]

/-- Reading inside a chunk. -/
theorem chunkAt_getElem {bytes : List ℕ} {p : ℕ} {cs : List ℕ}
    (h : ChunkAt bytes p cs) (k : ℕ) (hk : k < cs.length) :
    bytes[p + k]? = cs[k]? := by
  obtain ⟨rest, hr⟩ := h
  have h1 : (bytes.drop p)[k]? = bytes[p + k]? := List.getElem?_drop bytes p k
  rw [← h1, hr, List.getElem?_append_left hk]

/-- A cons chunk gives its head byte and the tail chunk. -/
theorem chunkAt_cons {bytes : List ℕ} {p : ℕ} {b : ℕ} {cs : List ℕ}
    (h : ChunkAt bytes p (b :: cs)) :
    bytes[p]? = some b ∧ ChunkAt bytes (p + 1) cs := by
  have h2 := chunkAt_append (show ChunkAt bytes p ([b] ++ cs) from by simpa using h)
  refine ⟨?_, by simpa using h2.2⟩
  have := chunkAt_getElem h 0 (by simp)
  simpa using this

/-- readU8 on a cons chunk. -/
theorem readU8_chunk {bytes : List ℕ} {p : ℕ} {b : ℕ} {cs : List ℕ}
    (h : ChunkAt bytes p (b :: cs)) : readU8 bytes p = some b :=
  (chunkAt_cons h).1

/-- readU16 reads back a u16Bytes encoding in either byte order. -/
theorem readU16_chunk {bytes : List ℕ} {p : ℕ} {v : ℕ} {le : Bool}
    (h : ChunkAt bytes p (u16Bytes v le)) (hv : v < 65536) :
    readU16 bytes p le = some v := by
  cases le with
  | true =>
    have h0 := chunkAt_getElem h 0 (by simp [u16Bytes])
    have h1 := chunkAt_getElem h 1 (by simp [u16Bytes])
    simp [u16Bytes] at h0 h1
    simp [readU16, h0, h1]
    omega
  | false =>
    have h0 := chunkAt_getElem h 0 (by simp [u16Bytes])
    have h1 := chunkAt_getElem h 1 (by simp [u16Bytes])
    simp [u16Bytes] at h0 h1
    simp [readU16, h0, h1]
    omega

/-- readU32 (little-endian) reads back a u32Bytes encoding. -/
theorem readU32_chunk {bytes : List ℕ} {p : ℕ} {v : ℕ}
    (h : ChunkAt bytes p (u32Bytes v)) (hv : v < 4294967296) :
    readU32 bytes p true = some v := by
  have h0 := chunkAt_getElem h 0 (by simp [u32Bytes])
  have h1 := chunkAt_getElem h 1 (by simp [u32Bytes])
  have h2 := chunkAt_getElem h 2 (by simp [u32Bytes])
  have h3 := chunkAt_getElem h 3 (by simp [u32Bytes])
  simp [u32Bytes] at h0 h1 h2 h3
  simp [readU32, h0, h1, h2, h3]
  omega

/-- Bytes within a chunk are within the buffer. -/
theorem chunkAt_bound {bytes : List ℕ} {p : ℕ} {cs : List ℕ}
    (h : ChunkAt bytes p cs) : cs.length ≤ bytes.length - p := by
  obtain ⟨rest, hr⟩ := h
  have := congrArg List.length hr
  simp [List.length_drop] at this
  omega

/-- Each read function is total on in-bounds offsets. -/
theorem readU8_isSome {bytes : List ℕ} {p : ℕ} (h : p < bytes.length) :
    (readU8 bytes p).isSome := by
  simp [readU8, List.getElem?_eq_getElem h]

/-- readU16 is total when both bytes are in bounds. -/
theorem readU16_isSome {bytes : List ℕ} {p : ℕ} {le : Bool}
    (h : p + 1 < bytes.length) : (readU16 bytes p le).isSome := by
  simp [readU16, List.getElem?_eq_getElem (show p < bytes.length by omega),
    List.getElem?_eq_getElem h]

/-- readU32 is total when all four bytes are in bounds. -/
theorem readU32_isSome {bytes : List ℕ} {p : ℕ} {le : Bool}
    (h : p + 3 < bytes.length) : (readU32 bytes p le).isSome := by
  simp [readU32, List.getElem?_eq_getElem (show p < bytes.length by omega),
    List.getElem?_eq_getElem (show p + 1 < bytes.length by omega),
    List.getElem?_eq_getElem (show p + 2 < bytes.length by omega),
    List.getElem?_eq_getElem h]

/-- readU64 is total when all eight bytes are in bounds. -/
theorem readU64_isSome {bytes : List ℕ} {p : ℕ} {le : Bool}
    (h : p + 7 < bytes.length) : (readU64 bytes p le).isSome := by
  have h1 : (readU32 bytes p le).isSome := readU32_isSome (by omega)
  have h2 : (readU32 bytes (p + 4) le).isSome := readU32_isSome (by omega)
  obtain ⟨a, ha⟩ := Option.isSome_iff_exists.mp h1
  obtain ⟨b, hb⟩ := Option.isSome_iff_exists.mp h2
  simp [readU64, ha, hb]

/-- For 141 <= bt the BASE_TYPES table has no row. -/
theorem baseTypesTable_none (bt : ℕ) (hb : 141 ≤ bt) : baseTypesTable bt = none := by
  unfold baseTypesTable
  repeat rw [if_neg (by omega)]

/-- Finite check: every table row with a read function has size equal to the
width of that read function. -/
theorem baseTypesTable_rkSizeOk (b : ℕ) (hlt : b < 141) :
    rkSizeOk (baseTypesTable b) = true := by
  revert b
  decide

/-- Every BASE_TYPES row with a read function has size equal to the width of
that read function. -/
theorem baseTypesTable_rkSize (bt : ℕ) (ti : BaseTypeInfo) (rk : ReadKind)
    (h : baseTypesTable bt = some ti) (h2 : ti.read = some rk) :
    rkSize rk = ti.size := by
  by_cases hb : 141 ≤ bt
  · rw [baseTypesTable_none bt hb] at h
    cases h
  · have hk := baseTypesTable_rkSizeOk bt (by omega)
    unfold rkSizeOk at hk
    rw [h] at hk
    have hk2 : (match ti.read with
      | some r => rkSize r == ti.size
      | none => true) = true := hk
    rw [h2] at hk2
    have hk3 : (rkSize rk == ti.size) = true := hk2
    simpa using hk3

/-- The same through the fallback lookup. -/
theorem lookupBaseType_rkSize (bt : ℕ) (ti : BaseTypeInfo) (rk : ReadKind)
    (h : lookupBaseType bt = some ti) (h2 : ti.read = some rk) :
    rkSize rk = ti.size := by
  unfold lookupBaseType at h
  cases hb : baseTypesTable bt with
  | some t =>
    rw [hb] at h
    simp [Option.orElse] at h
    subst h
    exact baseTypesTable_rkSize bt _ rk hb h2
  | none =>
    rw [hb] at h
    simp [Option.orElse] at h
    exact baseTypesTable_rkSize _ ti rk h h2

/-- readRaw is total on a chunk wide enough for its read kind. -/
theorem readRaw_isSome {bytes : List ℕ} {p : ℕ} (rk : ReadKind) (le : Bool)
    {cs : List ℕ} (h : ChunkAt bytes p cs) (hsz : rkSize rk ≤ cs.length) :
    (readRaw rk bytes p le).isSome := by
  have hb := chunkAt_bound h
  cases rk <;> simp only [rkSize] at hsz <;> simp only [readRaw, Option.isSome_map']
  case u8 => exact readU8_isSome (by omega)
  case i8 => exact readU8_isSome (by omega)
  case u16 => exact readU16_isSome (by omega)
  case i16 => exact readU16_isSome (by omega)
  case u32 => exact readU32_isSome (by omega)
  case i32 => exact readU32_isSome (by omega)
  case f32 => exact readU32_isSome (by omega)
  case f64 => exact readU64_isSome (by omega)

/-- foldl-accumulator form of fieldsSize. -/
theorem fieldsSize_accum (l : List FieldDef) :
    ∀ a : ℕ, l.foldl (fun acc f => acc + f.size) a = a + fieldsSize l := by
  induction l with
  | nil => intro a; simp [fieldsSize]
  | cons f rest ih =>
    intro a
    have h1 := ih (a + f.size)
    have h2 := ih (0 + f.size)
    simp only [List.foldl_cons, fieldsSize] at h1 h2 ⊢
    omega

/-- fieldsSize on a cons cell. -/
theorem fieldsSize_cons (f : FieldDef) (rest : List FieldDef) :
    fieldsSize (f :: rest) = f.size + fieldsSize rest := by
  have h := fieldsSize_accum rest (0 + f.size)
  show (f :: rest).foldl (fun acc g => acc + g.size) 0 = _
  rw [List.foldl_cons, h]
  omega

/-- foldl-accumulator form of devFieldsSize. -/
theorem devFieldsSize_accum (l : List DevFieldDef) :
    ∀ a : ℕ, l.foldl (fun acc d => acc + d.size) a = a + devFieldsSize l := by
  induction l with
  | nil => intro a; simp [devFieldsSize]
  | cons d rest ih =>
    intro a
    have h1 := ih (a + d.size)
    have h2 := ih (0 + d.size)
    simp only [List.foldl_cons, devFieldsSize] at h1 h2 ⊢
    omega

/-- readField always advances the cursor by exactly the declared field size
when the field bytes are in bounds (both the decode path and both skip
paths). -/
theorem readField_encoded {bytes : List ℕ} {p : ℕ} (f : FieldDef) (le : Bool)
    {cs : List ℕ} (h : ChunkAt bytes p cs) (hsz : f.size ≤ cs.length) :
    ∃ v, readField bytes p f le = some (p + f.size, v) := by
  unfold readField
  cases hlb : lookupBaseType f.baseType with
  | none =>
    simp only [hlb]
    exact ⟨none, rfl⟩
  | some ti =>
    simp only [hlb]
    cases hread : ti.read with
    | none =>
      simp only [hread]
      exact ⟨none, rfl⟩
    | some rk =>
      simp only [hread]
      by_cases hne : f.size ≠ ti.size
      · rw [if_pos hne]
        exact ⟨none, rfl⟩
      · push_neg at hne
        rw [if_neg (by omega)]
        have hrs := lookupBaseType_rkSize f.baseType ti rk hlb hread
        have hread_ok := readRaw_isSome rk le h (by omega)
        obtain ⟨v, hv⟩ := Option.isSome_iff_exists.mp hread_ok
        rw [hv]
        exact ⟨_, rfl⟩

/-- The per-field loop advances the cursor by exactly the total declared
field size, for any profile table and accumulated message. -/
theorem readFieldsLoop_encoded {bytes : List ℕ} (le : Bool)
    (prof : ℕ → Option FieldProfile) :
    ∀ (fl : List FieldDef) (p : ℕ) (msg : Msg) (cs : List ℕ),
      ChunkAt bytes p cs → fieldsSize fl ≤ cs.length →
      ∃ m, readFieldsLoop bytes le prof fl p msg = some (p + fieldsSize fl, m) := by
  intro fl
  induction fl with
  | nil =>
    intro p msg cs _ _
    exact ⟨msg, by simp [readFieldsLoop, fieldsSize]⟩
  | cons f rest ih =>
    intro p msg cs hchunk hsz
    rw [fieldsSize_cons] at hsz
    have hsplit := chunkAt_append
      (show ChunkAt bytes p (cs.take f.size ++ cs.drop f.size) from
        by simpa [List.take_append_drop] using hchunk)
    obtain ⟨v, hv⟩ := readField_encoded f le hchunk (by omega)
    have htail : ChunkAt bytes (p + f.size) (cs.drop f.size) := by
      have := hsplit.2
      rwa [List.length_take, Nat.min_eq_left (by omega)] at this
    rw [readFieldsLoop, hv]
    change ∃ m, readFieldsLoop bytes le prof rest (p + f.size)
      (match v, prof f.num with
       | some v, some pr => setKey msg pr.name (applyProfile pr ((v : ℚ)))
       | _, _ => msg) = some (p + fieldsSize (f :: rest), m)
    refine Exists.imp (fun m hm => hm.trans ?_)
      (ih (p + f.size) _ (cs.drop f.size) htail (by rw [List.length_drop]; omega))
    rw [fieldsSize_cons, ← Nat.add_assoc]

/-- readTriples reads back an encoded triple list. -/
theorem readTriples_encoded {bytes : List ℕ} :
    ∀ (ts : List (ℕ × ℕ × ℕ)) (p : ℕ),
      ChunkAt bytes p (triplesBytes ts) →
      readTriples bytes p ts.length = some (p + 3 * ts.length, ts) := by
  intro ts
  induction ts with
  | nil =>
    intro p _
    simp [readTriples, triplesBytes]
  | cons t rest ih =>
    intro p hchunk
    have h0 := chunkAt_cons hchunk
    have h1 := chunkAt_cons h0.2
    have h2 := chunkAt_cons h1.2
    have e0 : readU8 bytes p = some t.1 := h0.1
    have e1 : readU8 bytes (p + 1) = some t.2.1 := h1.1
    have e2 : readU8 bytes (p + 2) = some t.2.2 := h2.1
    have hrest := ih (p + 3) h2.2
    show readTriples bytes p (rest.length + 1) = _
    rw [readTriples]
    simp only [e0, e1, e2, hrest, Option.bind_eq_bind, Option.some_bind]
    refine congrArg some ?_
    refine Prod.ext ?_ rfl
    simp
    omega

/-- Length of an encoded triple list. -/
theorem triplesBytes_length (ts : List (ℕ × ℕ × ℕ)) :
    (triplesBytes ts).length = 3 * ts.length := by
  induction ts with
  | nil => rfl
  | cons t rest ih => simp [triplesBytes, ih]; omega

/-- fieldTriples keeps the length. -/
theorem fieldTriples_length (l : List FieldDef) :
    (fieldTriples l).length = l.length := by
  simp [fieldTriples]

/-- devTriples keeps the length. -/
theorem devTriples_length (l : List DevFieldDef) :
    (devTriples l).length = l.length := by
  simp [devTriples]

/-- Rebuilding FieldDefs from their triples is the identity. -/
theorem fieldTriples_inv (l : List FieldDef) :
    (fieldTriples l).map (fun t => FieldDef.mk t.1 t.2.1 t.2.2) = l := by
  induction l with
  | nil => rfl
  | cons f rest ih => simp [fieldTriples] at ih ⊢; exact ih

/-- Rebuilding DevFieldDefs from their triples is the identity. -/
theorem devTriples_inv (l : List DevFieldDef) :
    (devTriples l).map (fun t => DevFieldDef.mk t.1 t.2.1 t.2.2) = l := by
  induction l with
  | nil => rfl
  | cons d rest ih => simp [devTriples] at ih ⊢; exact ih

/-- u16Bytes always encodes two bytes. -/
theorem u16Bytes_length (v : ℕ) (le : Bool) : (u16Bytes v le).length = 2 := by
  cases le <;> rfl

/-- parseDefinition decodes an encoded definition body, advancing exactly
over it and storing the declared StreamDefinition. -/
theorem parseDefinition_encoded (bytes : List ℕ) (s : PState) (lt arch g : ℕ)
    (fields : List FieldDef) (devFields : List DevFieldDef) (hasDev : Bool)
    (hg : g < 65536) (hdev : hasDev = false → devFields = [])
    (hchunk : ChunkAt bytes s.offset
      (0 :: arch :: (u16Bytes g (arch == 0) ++
        (fields.length :: (triplesBytes (fieldTriples fields) ++
          (if hasDev then devFields.length :: triplesBytes (devTriples devFields)
           else [])))))) :
    parseDefinition bytes s lt hasDev =
      .ok { s with
        offset := s.offset + 5 + 3 * fields.length +
          (if hasDev then 1 + 3 * devFields.length else 0),
        definitions := assocSet s.definitions lt ⟨g, arch == 0, fields, devFields⟩ } := by
  have h0 := chunkAt_cons hchunk
  have h1 := chunkAt_cons h0.2
  have e_arch : readU8 bytes (s.offset + 1) = some arch := h1.1
  have h2 := chunkAt_append h1.2
  have e_g : readU16 bytes (s.offset + 1 + 1) (arch == 0) = some g :=
    readU16_chunk h2.1 hg
  have h2b := h2.2
  rw [u16Bytes_length] at h2b
  have h3 := chunkAt_cons h2b
  have e_flen : readU8 bytes (s.offset + 1 + 1 + 2) = some fields.length := h3.1
  have h4 := chunkAt_append h3.2
  have e_triples := readTriples_encoded (fieldTriples fields) (s.offset + 1 + 1 + 2 + 1) h4.1
  rw [fieldTriples_length] at e_triples
  have h4b := h4.2
  rw [triplesBytes_length, fieldTriples_length] at h4b
  unfold parseDefinition
  rw [show s.offset + 1 + 1 = s.offset + 2 from rfl] at e_g
  rw [show s.offset + 1 + 1 + 2 = s.offset + 4 from rfl] at e_flen
  rw [show s.offset + 1 + 1 + 2 + 1 = s.offset + 5 from rfl] at e_triples
  rw [show s.offset + 1 + 1 + 2 + 1 + 3 * fields.length =
    s.offset + 5 + 3 * fields.length from by omega] at h4b
  simp only [e_arch, e_g, e_flen, e_triples, fieldTriples_inv]
  cases hasDev with
  | false =>
    rw [hdev rfl]
    refine congrArg Except.ok ?_
    refine PState.mk.injEq .. |>.mpr ?_
    refine ⟨by simp, rfl, rfl, rfl⟩
  | true =>
    simp only [if_pos rfl] at h4b ⊢
    have h5 := chunkAt_cons h4b
    have e_dlen : readU8 bytes (s.offset + 5 + 3 * fields.length) = some devFields.length :=
      h5.1
    have e_dtriples := readTriples_encoded (devTriples devFields)
      (s.offset + 5 + 3 * fields.length + 1) h5.2
    rw [devTriples_length] at e_dtriples
    simp only [e_dlen, e_dtriples, devTriples_inv]
    refine congrArg Except.ok ?_
    refine PState.mk.injEq .. |>.mpr ?_
    refine ⟨by simp; omega, rfl, rfl, rfl⟩

/-- parseDataMessage decodes an encoded data payload, advancing exactly over
it and leaving the definitions unchanged. -/
theorem parseDataMessage_encoded (bytes : List ℕ) (s : PState) (lt : ℕ)
    (compTs : Option ℚ) (d : MsgDef) (payload : List ℕ)
    (hdef : assocGet s.definitions lt = some d)
    (hplen : payload.length = defSize d)
    (hchunk : ChunkAt bytes s.offset payload) :
    ∃ s', parseDataMessage bytes s lt compTs = .ok s' ∧
      s'.offset = s.offset + payload.length ∧
      s'.definitions = s.definitions := by
  unfold parseDataMessage
  rw [hdef]
  dsimp only []
  obtain ⟨m, hm⟩ := readFieldsLoop_encoded d.littleEndian
    (fitFields d.globalMsgNum) d.fields s.offset [] payload hchunk
    (by rw [hplen]; unfold defSize; omega)
  rw [hm]
  refine ⟨_, rfl, ?_, rfl⟩
  show s.offset + fieldsSize d.fields + devFieldsSize d.devFields =
    s.offset + payload.length
  rw [hplen]
  unfold defSize
  omega

/-- Nat.land with the single-bit mask 128. -/
theorem land_128 (n : ℕ) : Nat.land n 128 = n / 128 % 2 * 128 := by
  rw [show Nat.land n 128 = n &&& 2 ^ 7 from rfl, Nat.and_two_pow,
    Nat.testBit_to_div_mod]
  simp only [show (2 : ℕ) ^ 7 = 128 by norm_num]
  rcases Nat.mod_two_eq_zero_or_one (n / 128) with h | h <;> simp [h]

/-- Nat.land with the single-bit mask 64. -/
theorem land_64 (n : ℕ) : Nat.land n 64 = n / 64 % 2 * 64 := by
  rw [show Nat.land n 64 = n &&& 2 ^ 6 from rfl, Nat.and_two_pow,
    Nat.testBit_to_div_mod]
  simp only [show (2 : ℕ) ^ 6 = 64 by norm_num]
  rcases Nat.mod_two_eq_zero_or_one (n / 64) with h | h <;> simp [h]

/-- Nat.land with the single-bit mask 32. -/
theorem land_32 (n : ℕ) : Nat.land n 32 = n / 32 % 2 * 32 := by
  rw [show Nat.land n 32 = n &&& 2 ^ 5 from rfl, Nat.and_two_pow,
    Nat.testBit_to_div_mod]
  simp only [show (2 : ℕ) ^ 5 = 32 by norm_num]
  rcases Nat.mod_two_eq_zero_or_one (n / 32) with h | h <;> simp [h]

/-- Nat.land with the low-bit mask 15. -/
theorem land_15 (n : ℕ) : Nat.land n 15 = n % 16 := by
  rw [show Nat.land n 15 = n &&& (2 ^ 4 - 1) from rfl,
    Nat.and_pow_two_sub_one_eq_mod]

/-- Nat.land with the low-bit mask 3. -/
theorem land_3 (n : ℕ) : Nat.land n 3 = n % 4 := by
  rw [show Nat.land n 3 = n &&& (2 ^ 2 - 1) from rfl,
    Nat.and_pow_two_sub_one_eq_mod]

/-- parseRecord decodes one well-formed encoded record: it succeeds, advances
the cursor exactly over the encoding, and updates the definition registry as
stepEnv does. -/
theorem parseRecord_encoded (bytes : List ℕ) (s : PState) (r : AbsRecord)
    (hwf : WFRecord s.definitions r)
    (hchunk : ChunkAt bytes s.offset (encodeRecord r)) :
    ∃ s', parseRecord bytes s = .ok s' ∧
      s'.offset = s.offset + (encodeRecord r).length ∧
      s'.definitions = stepEnv s.definitions r := by
  cases r with
  | defn lt arch g fields devFields hasDev =>
    obtain ⟨hlt, harch, hg, hflen, hdlen, hfb, hdb, hdev⟩ := hwf
    rw [encodeRecord] at hchunk
    have h0 := chunkAt_cons hchunk
    have hbody := h0.2
    unfold parseRecord
    rw [show readU8 bytes s.offset =
      some (64 + (if hasDev then 32 else 0) + lt) from h0.1]
    dsimp only []
    cases hasDev with
    | false =>
      rw [hdev rfl] at hbody ⊢
      have hhdr : 64 + (if (false : Bool) = true then 32 else 0) + lt = 64 + lt := by
        simp
      rw [hhdr]
      have c1 : Nat.land (64 + lt) 128 = 0 := by rw [land_128]; omega
      have c2 : Nat.land (64 + lt) 64 = 64 := by rw [land_64]; omega
      have c3 : Nat.land (64 + lt) 15 = lt := by rw [land_15]; omega
      have c4 : Nat.land (64 + lt) 32 = 0 := by rw [land_32]; omega
      simp only [c1, c2, c3, c4]
      rw [if_neg (show ¬(0 : ℕ) ≠ 0 from not_not_intro rfl),
        if_pos (show (64 : ℕ) ≠ 0 from by omega)]
      have hpd := parseDefinition_encoded bytes { s with offset := s.offset + 1 }
        lt arch g fields [] false hg (fun _ => rfl) hbody
      refine ⟨_, hpd, ?_, rfl⟩
      show s.offset + 1 + 5 + 3 * fields.length +
        (if (false : Bool) = true then 1 + 3 * ([] : List DevFieldDef).length else 0) = _
      simp [encodeRecord, u16Bytes_length, triplesBytes_length, fieldTriples_length]
      omega
    | true =>
      have hhdr : 64 + (if (true : Bool) = true then 32 else 0) + lt = 96 + lt := by simp
      rw [hhdr]
      have c1 : Nat.land (96 + lt) 128 = 0 := by rw [land_128]; omega
      have c2 : Nat.land (96 + lt) 64 = 64 := by rw [land_64]; omega
      have c3 : Nat.land (96 + lt) 15 = lt := by rw [land_15]; omega
      have c4 : Nat.land (96 + lt) 32 = 32 := by rw [land_32]; omega
      simp only [c1, c2, c3, c4]
      rw [if_neg (show ¬(0 : ℕ) ≠ 0 from not_not_intro rfl),
        if_pos (show (64 : ℕ) ≠ 0 from by omega)]
      have hpd := parseDefinition_encoded bytes { s with offset := s.offset + 1 }
        lt arch g fields devFields true hg (fun h => by cases h) hbody
      refine ⟨_, hpd, ?_, rfl⟩
      show s.offset + 1 + 5 + 3 * fields.length +
        (if (true : Bool) = true then 1 + 3 * devFields.length else 0) = _
      simp [encodeRecord, u16Bytes_length, triplesBytes_length, fieldTriples_length,
        devTriples_length]
      omega
  | data lt payload =>
    obtain ⟨hlt, hb, d, hdef, hplen⟩ := hwf
    rw [encodeRecord] at hchunk
    have h0 := chunkAt_cons hchunk
    unfold parseRecord
    rw [show readU8 bytes s.offset = some lt from h0.1]
    dsimp only []
    have c1 : Nat.land lt 128 = 0 := by rw [land_128]; omega
    have c2 : Nat.land lt 64 = 0 := by rw [land_64]; omega
    have c3 : Nat.land lt 15 = lt := by rw [land_15]; omega
    simp only [c1, c2, c3]
    rw [if_neg (show ¬(0 : ℕ) ≠ 0 from not_not_intro rfl),
      if_neg (show ¬(0 : ℕ) ≠ 0 from not_not_intro rfl)]
    obtain ⟨s', hs', hoff, hdefs⟩ := parseDataMessage_encoded bytes
      { s with offset := s.offset + 1 } lt none d payload hdef hplen h0.2
    refine ⟨s', hs', ?_, hdefs⟩
    rw [hoff]
    show s.offset + 1 + payload.length = s.offset + (lt :: payload).length
    simp
    omega
  | compressed lt timeOffset payload =>
    obtain ⟨hlt, hto, hb, d, hdef, hplen⟩ := hwf
    rw [encodeRecord] at hchunk
    have h0 := chunkAt_cons hchunk
    unfold parseRecord
    rw [show readU8 bytes s.offset = some (128 + 32 * lt + timeOffset) from h0.1]
    dsimp only []
    have c1 : Nat.land (128 + 32 * lt + timeOffset) 128 = 128 := by
      rw [land_128]; omega
    have c2 : Nat.land ((128 + 32 * lt + timeOffset) >>> 5) 3 = lt := by
      rw [Nat.shiftRight_eq_div_pow, land_3]
      omega
    have c3 : Nat.land (128 + 32 * lt + timeOffset) 31 = timeOffset := by
      rw [land_mask_low]; omega
    simp only [c1, c2, c3]
    rw [if_pos (show (128 : ℕ) ≠ 0 from by omega)]
    obtain ⟨s', hs', hoff, hdefs⟩ := parseDataMessage_encoded bytes
      ({ s with offset := s.offset + 1, lastTimestamp := compressedTs s.lastTimestamp timeOffset })
      lt (some (compressedTs s.lastTimestamp timeOffset)) d payload hdef hplen h0.2
    refine ⟨s', hs', ?_, hdefs⟩
    rw [hoff]
    show s.offset + 1 + payload.length =
      s.offset + ((128 + 32 * lt + timeOffset) :: payload).length
    simp
    omega

/-- u32Bytes always encodes four bytes. -/
theorem u32Bytes_length (v : ℕ) : (u32Bytes v).length = 4 := rfl

/-- Every record encodes to at least one byte (its header byte). -/
theorem encodeRecord_length_pos (r : AbsRecord) : 1 ≤ (encodeRecord r).length := by
  cases r <;> simp [encodeRecord]

/-- A stream of n records encodes to at least n bytes. -/
theorem encodeStream_length_ge (rs : List AbsRecord) :
    rs.length ≤ (encodeStream rs).length := by
  induction rs with
  | nil => simp [encodeStream]
  | cons r rest ih =>
    have := encodeRecord_length_pos r
    simp only [encodeStream, List.length_append, List.length_cons]
    omega

/-- The decode loop consumes an encoded well-formed stream exactly: starting
at its first byte with matching definitions and enough fuel, it ends with the
cursor at the end of the encoding. -/
theorem parseLoop_encoded (bytes : List ℕ) :
    ∀ (rs : List AbsRecord) (s : PState) (fuel dataEnd : ℕ),
      WFStream s.definitions rs →
      ChunkAt bytes s.offset (encodeStream rs) →
      rs.length ≤ fuel →
      dataEnd = s.offset + (encodeStream rs).length →
      (parseLoop bytes dataEnd fuel s).offset = dataEnd := by
  intro rs
  induction rs with
  | nil =>
    intro s fuel dataEnd _ _ _ hde
    cases fuel with
    | zero => simp [parseLoop, hde, encodeStream]
    | succ f =>
      rw [parseLoop, if_neg (by simp [encodeStream] at hde; omega)]
      simp [hde, encodeStream]
  | cons r rest ih =>
    intro s fuel dataEnd hwf hchunk hfuel hde
    have hsplit := chunkAt_append
      (show ChunkAt bytes s.offset (encodeRecord r ++ encodeStream rest) from
        by simpa [encodeStream] using hchunk)
    obtain ⟨s', hs', hoff, hdefs⟩ := parseRecord_encoded bytes s r hwf.1 hsplit.1
    cases fuel with
    | zero => simp at hfuel
    | succ f =>
      rw [parseLoop, if_pos (by
        have h1 := encodeRecord_length_pos r
        simp only [encodeStream, List.length_append] at hde
        omega), hs']
      have hch' : ChunkAt bytes s'.offset (encodeStream rest) := by
        rw [hoff]
        exact hsplit.2
      have hwf' : WFStream s'.definitions rest := by
        rw [hdefs]
        exact hwf.2
      refine ih s' f dataEnd hwf' hch' (by simpa using hfuel) ?_
      rw [hoff, hde]
      simp [encodeStream]
      omega

/-! ### Claim C2 -/

/-- Claim C2: for every well-formed protocol stream (arbitrary definition,
data and compressed-timestamp records, including skipped array/string fields,
unrecognized fields and developer fields), a full decode pass succeeds and
ends with the byte cursor at exactly headerLength + payloadLength: the
per-record advancements sum to the declared payload size with no over- or
under-read. -/
theorem c2_cursor_exact (hs : ℕ) (rs : List AbsRecord)
    (hhs : 12 ≤ hs) (hwf : WFStream [] rs)
    (hlen : (encodeStream rs).length < 4294967296) :
    ∃ st, fitParse (mkFitStream hs rs) = .ok st ∧
      st.offset = hs + (encodeStream rs).length := by
  have e0 : readU8 (mkFitStream hs rs) 0 = some hs := rfl
  have hc4 : ChunkAt (mkFitStream hs rs) 4 (u32Bytes (encodeStream rs).length) := by
    refine ⟨(0x2E : ℕ) :: 0x46 :: 0x49 :: 0x54 ::
      (List.replicate (hs - 12) 0 ++ encodeStream rs), ?_⟩
    rfl
  have e4 : readU32 (mkFitStream hs rs) 4 true = some (encodeStream rs).length :=
    readU32_chunk hc4 hlen
  have hd8 : (mkFitStream hs rs).drop 8 =
      (0x2E : ℕ) :: 0x46 :: 0x49 :: 0x54 ::
        (List.replicate (hs - 12) 0 ++ encodeStream rs) := by
    show (u32Bytes (encodeStream rs).length ++ _).drop 4 = _
    exact List.drop_left' (u32Bytes_length _)
  have hc8 : ChunkAt (mkFitStream hs rs) 8
      ((0x2E : ℕ) :: 0x46 :: 0x49 :: 0x54 ::
        (List.replicate (hs - 12) 0 ++ encodeStream rs)) := by
    refine ⟨[], ?_⟩
    rw [hd8, List.append_nil]
  have e8 := chunkAt_getElem hc8 0 (by simp)
  have e9 := chunkAt_getElem hc8 1 (by simp)
  have e10 := chunkAt_getElem hc8 2 (by simp)
  have e11 := chunkAt_getElem hc8 3 (by simp)
  simp only [show (8 : ℕ) + 0 = 8 from rfl, show (8 : ℕ) + 1 = 9 from rfl,
    show (8 : ℕ) + 2 = 10 from rfl, show (8 : ℕ) + 3 = 11 from rfl,
    List.getElem?_cons_zero, List.getElem?_cons_succ] at e8 e9 e10 e11
  have hcp : ChunkAt (mkFitStream hs rs) hs (encodeStream rs) := by
    refine ⟨[], ?_⟩
    have h12 : (mkFitStream hs rs).drop 12 =
        List.replicate (hs - 12) 0 ++ encodeStream rs := by
      have := congrArg (List.drop 4) hd8
      rw [List.drop_drop] at this
      simpa using this
    have hhs' : (mkFitStream hs rs).drop hs =
        (List.replicate (hs - 12) 0 ++ encodeStream rs).drop (hs - 12) := by
      rw [← h12, List.drop_drop]
      congr 1
      omega
    rw [hhs', List.drop_left' (by simp), List.append_nil]
  unfold fitParse parseHeader
  rw [e0]
  dsimp only []
  rw [e4]
  dsimp only []
  rw [if_pos ⟨e8, e9, e10, e11⟩]
  refine ⟨_, rfl, ?_⟩
  refine parseLoop_encoded (mkFitStream hs rs) rs
    { offset := hs, definitions := [], messages := [], lastTimestamp := 0 }
    (hs + (encodeStream rs).length) (hs + (encodeStream rs).length)
    hwf hcp ?_ rfl
  have := encodeStream_length_ge rs
  omega

/-- Witness for c2_cursor_exact on c2Rs with the minimal 12-byte header. -/
theorem c2_cursor_exact_witness :
    ∃ st, fitParse (mkFitStream 12 c2Rs) = .ok st ∧
      st.offset = 12 + (encodeStream c2Rs).length :=
  c2_cursor_exact 12 c2Rs (by omega)
    ⟨⟨by omega, by omega, by omega, by decide, by decide, by decide, by decide,
      fun _ => rfl⟩,
     ⟨by omega, by decide, ⟨⟨20, true, [⟨3, 1, 2⟩], []⟩, by decide, by decide⟩⟩,
     trivial⟩
    (by decide)

theorem chunkAt_take {bytes : List ℕ} {p : ℕ} {cs : List ℕ}
    (h : ChunkAt bytes p cs) : (bytes.drop p).take cs.length = cs := by
  obtain ⟨rest, hr⟩ := h
  rw [hr]
  exact List.take_left' rfl

theorem localChunk_length (e : ZipEntry) :
    (localChunk e).length = 30 + e.name.length + e.data.length := by
  simp [localChunk, u16Bytes]
  omega

theorem centralChunk_length (e : ZipEntry) (lo : ℕ) :
    (centralChunk e lo).length = 46 + e.name.length := by
  simp [centralChunk, u16Bytes, u32Bytes]
  omega

theorem eocdChunk_length (cdSize cdOffset n : ℕ) :
    (eocdChunk cdSize cdOffset n).length = 22 := by
  simp [eocdChunk, u16Bytes, u32Bytes]

theorem readU16_chunk_bytes {bytes : List ℕ} {p a b : ℕ} {tail : List ℕ}
    (h : ChunkAt bytes p (a :: b :: tail)) :
    readU16 bytes p true = some (a + 256 * b) := by
  have h0 := chunkAt_getElem h 0 (by simp)
  have h1 := chunkAt_getElem h 1 (by simp)
  simp at h0 h1
  simp [readU16, h0, h1]

theorem readU32_chunk_bytes {bytes : List ℕ} {p a b c2 d : ℕ} {tail : List ℕ}
    (h : ChunkAt bytes p (a :: b :: c2 :: d :: tail)) :
    readU32 bytes p true = some (a + 256 * b + 65536 * c2 + 16777216 * d) := by
  have h0 := chunkAt_getElem h 0 (by simp)
  have h1 := chunkAt_getElem h 1 (by simp)
  have h2 := chunkAt_getElem h 2 (by simp)
  have h3 := chunkAt_getElem h 3 (by simp)
  simp at h0 h1 h2 h3
  simp [readU32, h0, h1, h2, h3]

theorem chunkAt_tail4 {bytes : List ℕ} {p a b c2 d : ℕ} {tail : List ℕ}
    (h : ChunkAt bytes p (a :: b :: c2 :: d :: tail)) :
    ChunkAt bytes (p + 4) tail := by
  have h1 := (chunkAt_cons (chunkAt_cons (chunkAt_cons (chunkAt_cons h).2).2).2).2
  have : p + 1 + 1 + 1 + 1 = p + 4 := by omega
  rwa [this] at h1

theorem eocd_reads {bytes : List ℕ} {p cdSize cdOffset n : ℕ}
    (h : ChunkAt bytes p (eocdChunk cdSize cdOffset n))
    (hn : n < 65536) (hoff : cdOffset < 4294967296) :
    readU32 bytes p true = some 0x06054b50 ∧
      readU16 bytes (p + 10) true = some n ∧
      readU32 bytes (p + 16) true = some cdOffset := by
  have hsig := readU32_chunk_bytes (h.imp fun _ hr => hr)
  have h4 : ChunkAt bytes (p + 4) (List.replicate 4 0 ++ (u16Bytes n true ++
      (u16Bytes n true ++ (u32Bytes cdSize ++ (u32Bytes cdOffset ++
        u16Bytes 0 true))))) := chunkAt_tail4 h
  have h8 := (chunkAt_append h4).2
  rw [List.length_replicate, show p + 4 + 4 = p + 8 by omega] at h8
  have h10 := (chunkAt_append h8).2
  rw [u16Bytes_length, show p + 8 + 2 = p + 10 by omega] at h10
  have hr10 := readU16_chunk (chunkAt_append h10).1 hn
  have h12 := (chunkAt_append h10).2
  rw [u16Bytes_length, show p + 10 + 2 = p + 12 by omega] at h12
  have h16 := (chunkAt_append h12).2
  rw [u32Bytes_length, show p + 12 + 4 = p + 16 by omega] at h16
  have hr16 := readU32_chunk (chunkAt_append h16).1 hoff
  exact ⟨by norm_num at hsig ⊢; exact hsig, hr10, hr16⟩

theorem central_reads {bytes : List ℕ} {p : ℕ} {e : ZipEntry} {lo : ℕ}
    (h : ChunkAt bytes p (centralChunk e lo))
    (hn : e.name.length < 65536) (hd : e.data.length < 4294967296)
    (hm : e.method < 65536) (hlo : lo < 4294967296) :
    readU32 bytes p true = some 0x02014b50 ∧
      readU16 bytes (p + 10) true = some e.method ∧
      readU32 bytes (p + 20) true = some e.data.length ∧
      readU16 bytes (p + 28) true = some e.name.length ∧
      readU16 bytes (p + 30) true = some 0 ∧
      readU16 bytes (p + 32) true = some 0 ∧
      readU32 bytes (p + 42) true = some lo ∧
      (bytes.drop (p + 46)).take e.name.length = e.name := by
  have hsig := readU32_chunk_bytes (h.imp fun _ hr => hr)
  have h4 : ChunkAt bytes (p + 4) (List.replicate 6 0 ++ (u16Bytes e.method true ++
      (List.replicate 8 0 ++ (u32Bytes e.data.length ++ (u32Bytes 0 ++
        (u16Bytes e.name.length true ++ (u16Bytes 0 true ++ (u16Bytes 0 true ++
          (List.replicate 8 0 ++ (u32Bytes lo ++ e.name)))))))))) := chunkAt_tail4 h
  have h10 := (chunkAt_append h4).2
  rw [List.length_replicate, show p + 4 + 6 = p + 10 by omega] at h10
  have hr10 := readU16_chunk (chunkAt_append h10).1 hm
  have h12 := (chunkAt_append h10).2
  rw [u16Bytes_length, show p + 10 + 2 = p + 12 by omega] at h12
  have h20 := (chunkAt_append h12).2
  rw [List.length_replicate, show p + 12 + 8 = p + 20 by omega] at h20
  have hr20 := readU32_chunk (chunkAt_append h20).1 hd
  have h24 := (chunkAt_append h20).2
  rw [u32Bytes_length, show p + 20 + 4 = p + 24 by omega] at h24
  have h28 := (chunkAt_append h24).2
  rw [u32Bytes_length, show p + 24 + 4 = p + 28 by omega] at h28
  have hr28 := readU16_chunk (chunkAt_append h28).1 hn
  have h30 := (chunkAt_append h28).2
  rw [u16Bytes_length, show p + 28 + 2 = p + 30 by omega] at h30
  have hr30 := readU16_chunk (chunkAt_append h30).1 (by omega)
  have h32 := (chunkAt_append h30).2
  rw [u16Bytes_length, show p + 30 + 2 = p + 32 by omega] at h32
  have hr32 := readU16_chunk (chunkAt_append h32).1 (by omega)
  have h34 := (chunkAt_append h32).2
  rw [u16Bytes_length, show p + 32 + 2 = p + 34 by omega] at h34
  have h42 := (chunkAt_append h34).2
  rw [List.length_replicate, show p + 34 + 8 = p + 42 by omega] at h42
  have hr42 := readU32_chunk (chunkAt_append h42).1 hlo
  have h46 := (chunkAt_append h42).2
  rw [u32Bytes_length, show p + 42 + 4 = p + 46 by omega] at h46
  have hr46 := chunkAt_take h46
  exact ⟨by norm_num at hsig ⊢; exact hsig, hr10, hr20, hr28, hr30, hr32, hr42, hr46⟩

theorem local_reads {bytes : List ℕ} {lo : ℕ} {e : ZipEntry}
    (h : ChunkAt bytes lo (localChunk e)) (hn : e.name.length < 65536) :
    readU16 bytes (lo + 26) true = some e.name.length ∧
      readU16 bytes (lo + 28) true = some 0 ∧
      (bytes.drop (lo + 30 + e.name.length)).take e.data.length = e.data := by
  have h4 : ChunkAt bytes (lo + 4) (List.replicate 22 0 ++ (u16Bytes e.name.length true ++
      (u16Bytes 0 true ++ (e.name ++ e.data)))) := chunkAt_tail4 h
  have h26 := (chunkAt_append h4).2
  rw [List.length_replicate, show lo + 4 + 22 = lo + 26 by omega] at h26
  have hr26 := readU16_chunk (chunkAt_append h26).1 hn
  have h28 := (chunkAt_append h26).2
  rw [u16Bytes_length, show lo + 26 + 2 = lo + 28 by omega] at h28
  have hr28 := readU16_chunk (chunkAt_append h28).1 (by omega)
  have h30 := (chunkAt_append h28).2
  rw [u16Bytes_length, show lo + 28 + 2 = lo + 30 by omega] at h30
  have hdata := (chunkAt_append h30).2
  rw [show lo + 30 + e.name.length = lo + 30 + e.name.length from rfl] at hdata
  have hr := chunkAt_take hdata
  exact ⟨hr26, hr28, hr⟩

theorem findEocdFrom_hit (bytes : List ℕ) (lo n : ℕ)
    (h : readU32 bytes (lo + n) true = some 0x06054b50) :
    findEocdFrom bytes lo n = some (lo + n) := by
  cases n with
  | zero =>
    have h2 : readU32 bytes lo true = some 0x06054b50 := by simpa using h
    simp [findEocdFrom, h2]
  | succ k => simp [findEocdFrom, show lo + (k + 1) = lo + k + 1 by omega] at h ⊢; simp [h]

theorem entriesWithOffsets_length (s : ℕ) (es : List ZipEntry) :
    (entriesWithOffsets s es).length = es.length := by
  induction es generalizing s with
  | nil => rfl
  | cons e rest ih => simp [entriesWithOffsets, ih]

theorem entriesWithOffsets_fst {s : ℕ} {es : List ZipEntry} {q : ZipEntry × ℕ}
    (h : q ∈ entriesWithOffsets s es) : q.1 ∈ es := by
  induction es generalizing s with
  | nil => simp [entriesWithOffsets] at h
  | cons e rest ih =>
    simp only [entriesWithOffsets, List.mem_cons] at h
    rcases h with h | h
    · simp [h]
    · exact List.mem_cons_of_mem _ (ih h)

theorem entriesWithOffsets_chunks {bytes : List ℕ} {p : ℕ} {es : List ZipEntry}
    (h : ChunkAt bytes p (localsRegion es)) :
    ∀ q ∈ entriesWithOffsets p es, ChunkAt bytes q.2 (localChunk q.1) := by
  induction es generalizing p with
  | nil => simp [entriesWithOffsets]
  | cons e rest ih =>
    intro q hq
    have hsplit := chunkAt_append
      (show ChunkAt bytes p (localChunk e ++ localsRegion rest) from h)
    simp only [entriesWithOffsets, List.mem_cons] at hq
    rcases hq with hq | hq
    · rw [hq]; exact hsplit.1
    · have h2 := hsplit.2
      rw [localChunk_length, show p + (30 + e.name.length + e.data.length) =
        p + 30 + e.name.length + e.data.length by omega] at h2
      exact ih h2 q hq

theorem entriesWithOffsets_find_fst (s : ℕ) (es : List ZipEntry) :
    ((entriesWithOffsets s es).find? (fun q => isFitName q.1.name)).map Prod.fst =
      es.find? (fun e => isFitName e.name) := by
  induction es generalizing s with
  | nil => rfl
  | cons e rest ih =>
    by_cases hfit : isFitName e.name
    · simp [List.find?, hfit]
    · simp [List.find?, hfit]
      exact ih _

theorem walkCD_encoded {bytes : List ℕ} (ps : List (ZipEntry × ℕ)) (p : ℕ)
    (hC : ChunkAt bytes p (centralRegion ps))
    (hWF : ∀ q ∈ ps, q.1.name.length < 65536 ∧ q.1.data.length < 4294967296 ∧
      q.1.method < 65536 ∧ q.2 < 4294967296 ∧ ChunkAt bytes q.2 (localChunk q.1)) :
    walkCD bytes p ps.length =
      match ps.find? (fun q => isFitName q.1.name) with
      | none => .error "No .fit file found in ZIP"
      | some q =>
        if q.1.method = 0 then .ok (.stored q.1.data)
        else if q.1.method = 8 then .ok (.deflated q.1.data)
        else .error ("Unsupported compression method: " ++ toString q.1.method) := by
  induction ps generalizing p with
  | nil => rfl
  | cons q rest ih =>
    obtain ⟨e, lo⟩ := q
    obtain ⟨hn, hd, hm, hlo, hL⟩ := hWF (e, lo) (List.mem_cons_self _ _)
    have hsplit := chunkAt_append
      (show ChunkAt bytes p (centralChunk e lo ++ centralRegion rest) from hC)
    obtain ⟨hsig, hr10, hr20, hr28, hr30, hr32, hr42, hname⟩ :=
      central_reads hsplit.1 hn hd hm hlo
    obtain ⟨hl26, hl28, hldata⟩ := local_reads hL hn
    rw [List.length_cons, walkCD, hsig]
    dsimp only []
    rw [if_neg (show ¬(0x02014b50 ≠ 0x02014b50) from not_not_intro rfl)]
    rw [hr10, hr20, hr28, hr30, hr32, hr42]
    dsimp only []
    rw [hname]
    by_cases hfit : isFitName e.name
    · rw [if_pos hfit, hl26, hl28]
      dsimp only []
      rw [show lo + 30 + e.name.length + 0 = lo + 30 + e.name.length from rfl, hldata]
      simp [List.find?, hfit]
    · rw [if_neg hfit]
      have h2 := hsplit.2
      rw [centralChunk_length,
        show p + (46 + e.name.length) = p + 46 + e.name.length + 0 + 0 by omega] at h2
      rw [ih _ h2 (fun q hq => hWF q (List.mem_cons_of_mem _ hq))]
      simp [List.find?, hfit]

theorem chunkAt_localChunk_lt {bytes : List ℕ} {p : ℕ} {e : ZipEntry}
    (h : ChunkAt bytes p (localChunk e)) : p < bytes.length := by
  have hb := chunkAt_bound h
  rw [localChunk_length] at hb
  omega

/-- C9: on a well-formed archive, the extractor's result is decided entirely
by the first central-directory entry (in directory order) whose name ends in
".fit" case-insensitively: its payload is returned for methods 0 and 8 and
only its method can raise the unsupported-method error; entries after it are
never examined. -/
theorem c9_first_fit_entry (entries : List ZipEntry) (h : WFZip entries) :
    extractFitFromZip (mkZip entries) = expectedExtract entries := by
  obtain ⟨hents, hcount, hlen⟩ := h
  have hb0 : ChunkAt (mkZip entries) 0
      (localsRegion entries ++
        (centralRegion (entriesWithOffsets 0 entries) ++
          eocdChunk (centralRegion (entriesWithOffsets 0 entries)).length
            (localsRegion entries).length entries.length)) := ⟨[], by simp [mkZip]⟩
  have hsplit1 := chunkAt_append hb0
  have hL := hsplit1.1
  have hCE := hsplit1.2
  rw [Nat.zero_add] at hCE
  have hsplit2 := chunkAt_append hCE
  have hCgood := hsplit2.1
  have hE := hsplit2.2
  have hlenb : (mkZip entries).length =
      (localsRegion entries).length +
        (centralRegion (entriesWithOffsets 0 entries)).length + 22 := by
    simp [mkZip, eocdChunk_length]
    omega
  have hLlt : (localsRegion entries).length < 4294967296 := by omega
  obtain ⟨hesig, he10, he16⟩ := eocd_reads hE hcount hLlt
  have hpos : (mkZip entries).length - 65557 +
      ((mkZip entries).length - 22 - ((mkZip entries).length - 65557)) =
      (localsRegion entries).length +
        (centralRegion (entriesWithOffsets 0 entries)).length := by omega
  have hfind : findEocd (mkZip entries) =
      some ((localsRegion entries).length +
        (centralRegion (entriesWithOffsets 0 entries)).length) := by
    rw [findEocd, if_neg (show ¬(mkZip entries).length < 22 by omega),
      findEocdFrom_hit (mkZip entries) ((mkZip entries).length - 65557)
        ((mkZip entries).length - 22 - ((mkZip entries).length - 65557))
        (by rw [hpos]; exact hesig), hpos]
  rw [extractFitFromZip, hfind]
  dsimp only []
  rw [he16, he10]
  dsimp only []
  have hWFall : ∀ q ∈ entriesWithOffsets 0 entries,
      q.1.name.length < 65536 ∧ q.1.data.length < 4294967296 ∧
        q.1.method < 65536 ∧ q.2 < 4294967296 ∧
        ChunkAt (mkZip entries) q.2 (localChunk q.1) := by
    intro q hq
    obtain ⟨h1, h2, h3, _, _⟩ := hents q.1 (entriesWithOffsets_fst hq)
    have hloc := entriesWithOffsets_chunks hL q hq
    have hqlt := chunkAt_localChunk_lt hloc
    exact ⟨h1, h2, h3, by omega, hloc⟩
  rw [← entriesWithOffsets_length 0 entries,
    walkCD_encoded (entriesWithOffsets 0 entries) (localsRegion entries).length
      hCgood hWFall]
  have hmap := entriesWithOffsets_find_fst 0 entries
  rw [expectedExtract]
  cases hfe : entries.find? (fun e => isFitName e.name) with
  | none =>
    rw [hfe, Option.map_eq_none'] at hmap
    rw [hmap]
  | some e =>
    rw [hfe, Option.map_eq_some'] at hmap
    obtain ⟨q, hq, hq1⟩ := hmap
    rw [hq]
    dsimp only []
    rw [hq1]

set_option maxRecDepth 100000 in
theorem c9_first_fit_entry_witness :
    WFZip c9Entries ∧
      extractFitFromZip (mkZip c9Entries) = .ok (.stored [1, 2, 3]) :=
  ⟨by unfold WFZip; decide,
   (c9_first_fit_entry c9Entries (by unfold WFZip; decide)).trans (by decide)⟩
